import Mathlib

/-!
Verification development for the procedural dungeon generator and room
manager of the three.js dungeon-crawler repository.

The TypeScript sources are shallowly embedded:
* JavaScript `Map` objects (insertion-ordered) are modelled as association
  lists; `Map.set` updates the first matching key in place or appends.
  The generator's grid map uses string keys of the form "x,z" built by
  gridKey; since that encoding of an integer pair is injective, the grid
  is keyed directly by the pair (Int × Int).
* JavaScript numbers holding integer values are modelled as Int (exact for
  values below 2^53, which covers every quantity the generator handles);
  world coordinates and probabilities are modelled as ℚ.  The Mulberry32
  PRNG performs its bit-mixing on 32-bit values: all JS bitwise operators
  coerce to 32 bits, and the one plain addition feeding a coercion is
  exact, so computing on Nat modulo 2^32 reproduces the JS bit patterns.
* Mutable objects aliased between the room map and the frontier are
  modelled by keying the frontier with room ids and threading the room
  map explicitly.
* THREE.Group values are modelled by the data the code stores on them
  (userData, position, collision-relevant children); geometry internals
  are irrelevant to every property proved here.
-/

namespace DungeonSpec

/-! ## Association lists: the model of insertion-ordered JS Map -/

def alGet? [DecidableEq κ] : List (κ × β) → κ → Option β
  | [], _ => none
  | p :: rest, k => if p.1 = k then some p.2 else alGet? rest k

def alHas [DecidableEq κ] (m : List (κ × β)) (k : κ) : Bool :=
  (alGet? m k).isSome

/-- JS Map.set: overwrite the entry in place if the key is present,
otherwise append at the end (insertion order). -/
def alSet [DecidableEq κ] : List (κ × β) → κ → β → List (κ × β)
  | [], k, v => [(k, v)]
  | p :: rest, k, v => if p.1 = k then (k, v) :: rest else p :: alSet rest k v

@[simp] theorem alGet?_nil [DecidableEq κ] (k : κ) :
    alGet? ([] : List (κ × β)) k = none := rfl

theorem alGet?_cons [DecidableEq κ] (p : κ × β) (rest : List (κ × β)) (k : κ) :
    alGet? (p :: rest) k = if p.1 = k then some p.2 else alGet? rest k := rfl

@[simp] theorem alGet?_alSet_self [DecidableEq κ] (m : List (κ × β)) (k : κ) (v : β) :
    alGet? (alSet m k v) k = some v := by
  induction m with
  | nil => simp [alSet, alGet?]
  | cons p rest ih =>
    by_cases h : p.1 = k
    · simp [alSet, h, alGet?]
    · simp [alSet, h, alGet?, ih]

theorem alGet?_alSet_ne [DecidableEq κ] (m : List (κ × β)) (k k' : κ) (v : β)
    (h : k' ≠ k) : alGet? (alSet m k v) k' = alGet? m k' :=  by
  have hk : ¬ k = k' := fun hh => h hh.symm
  induction m with
  | nil => simp [alSet, alGet?, hk]
  | cons p rest ih =>
    by_cases hp : p.1 = k
    · subst hp
      simp [alSet, alGet?_cons, hk]
    · simp [alSet, hp, alGet?_cons, ih]

theorem alSet_of_not_has [DecidableEq κ] (m : List (κ × β)) (k : κ) (v : β)
    (h : alHas m k = false) : alSet m k v = m ++ [(k, v)] := by
  induction m with
  | nil => simp [alSet]
  | cons p rest ih =>
    simp only [alHas, alGet?_cons] at h
    by_cases hp : p.1 = k
    · simp [hp] at h
    · simp only [alSet, hp, if_false, List.cons_append, List.cons.injEq, true_and]
      exact ih (by simpa [alHas, hp] using h)

theorem keys_alSet_of_has [DecidableEq κ] (m : List (κ × β)) (k : κ) (v : β)
    (h : alHas m k = true) : (alSet m k v).map Prod.fst = m.map Prod.fst := by
  induction m with
  | nil => simp [alHas] at h
  | cons p rest ih =>
    by_cases hp : p.1 = k
    · simp [alSet, hp]
    · simp only [alHas, alGet?_cons, hp, if_false] at h
      simp [alSet, hp, ih (by simpa [alHas] using h)]

theorem alGet?_eq_some_mem [DecidableEq κ] {m : List (κ × β)} {k : κ} {v : β}
    (h : alGet? m k = some v) : (k, v) ∈ m := by
  induction m with
  | nil => simp [alGet?] at h
  | cons p rest ih =>
    obtain ⟨k1, v1⟩ := p
    by_cases hp : k1 = k
    · subst hp
      simp only [alGet?_cons, if_true, Option.some.injEq] at h
      subst h
      exact List.mem_cons_self _ _
    · simp only [alGet?_cons, hp, if_false] at h
      exact List.mem_cons_of_mem _ (ih h)

theorem alGet?_isSome_iff_mem_keys [DecidableEq κ] (m : List (κ × β)) (k : κ) :
    (alGet? m k).isSome = true ↔ k ∈ m.map Prod.fst := by
  induction m with
  | nil => simp [alGet?]
  | cons p rest ih =>
    by_cases hp : p.1 = k
    · simp [alGet?_cons, hp]
    · simp [alGet?_cons, hp, ih, Ne.symm hp]

theorem mem_alSet [DecidableEq κ] {m : List (κ × β)} {k : κ} {v : β} {p : κ × β}
    (h : p ∈ alSet m k v) : p = (k, v) ∨ p ∈ m := by
  induction m with
  | nil => simpa [alSet] using h
  | cons q rest ih =>
    by_cases hq : q.1 = k
    · simp only [alSet, hq, if_true, List.mem_cons] at h
      rcases h with h1 | h1
      · exact Or.inl h1
      · exact Or.inr (List.mem_cons_of_mem _ h1)
    · simp only [alSet, hq, if_false, List.mem_cons] at h
      rcases h with h1 | h1
      · exact Or.inr (h1 ▸ List.mem_cons_self _ _)
      · rcases ih h1 with h2 | h2
        · exact Or.inl h2
        · exact Or.inr (List.mem_cons_of_mem _ h2)

/-- Under distinct keys, alSet is a pointwise map over the entries. -/
theorem alSet_eq_map_of_nodup [DecidableEq κ] (m : List (κ × β)) (k : κ) (v : β)
    (hd : (m.map Prod.fst).Nodup) (hh : alHas m k = true) :
    alSet m k v = m.map fun p => if p.1 = k then (k, v) else p := by
  induction m with
  | nil => simp [alHas] at hh
  | cons p rest ih =>
    simp only [List.map_cons, List.nodup_cons] at hd
    by_cases hp : p.1 = k
    · have hfix : ∀ q ∈ rest, (if q.1 = k then ((k, v) : κ × β) else q) = q := by
        intro q hq
        have hqk : q.1 ≠ k := by
          intro hqk
          have hmem : q.1 ∈ rest.map Prod.fst := List.mem_map_of_mem Prod.fst hq
          rw [hqk, ← hp] at hmem
          exact hd.1 hmem
        simp [hqk]
      have hrest : rest.map (fun q => if q.1 = k then ((k, v) : κ × β) else q) = rest := by
        rw [List.map_congr_left hfix]
        simp
      simp [alSet, hp, hrest]
    · have hh' : alHas rest k = true := by
        simpa [alHas, alGet?_cons, hp] using hh
      simp [alSet, hp, ih hd.2 hh']

/-! ## Directions and room types (src/world/room.ts, dungeonGenerator source) -/

inductive Direction where
  | north
  | south
  | east
  | west
deriving DecidableEq, Repr

instance : Inhabited Direction := ⟨Direction.north⟩

def OPPOSITE_DIRECTION : Direction → Direction
  | .north => .south
  | .south => .north
  | .east => .west
  | .west => .east

/-- Unit grid offset of each direction (x, z). -/
def DIRECTION_OFFSET : Direction → Int × Int
  | .north => (0, -1)
  | .south => (0, 1)
  | .east => (1, 0)
  | .west => (-1, 0)

inductive RoomType where
  | basic
  | corridor_ns
  | corridor_ew
  | junction
  | dead_end
deriving DecidableEq, Repr

instance : Inhabited RoomType := ⟨RoomType.basic⟩

def TILE_SIZE : ℚ := 1

/-! ## SeededRandom: the Mulberry32 PRNG

JS stores the seed in a double and only coerces to 32 bits inside the
bitwise pipeline of next(); the running seed itself accumulates exactly
(all values stay far below 2^53 for the integer seeds and call counts the
generator produces), so it is carried as an exact Int here and reduced
modulo 2^32 exactly where JS ToUint32 applies. Math.imul is a 32-bit
product; the one plain + feeding the final xor is coerced by ToInt32,
whose bit pattern is addition modulo 2^32. -/

def UINT32_CARD : Nat := 4294967296

/-- Math.imul: 32-bit integer multiplication (bit pattern view). -/
def imul32 (a b : Nat) : Nat := (a * b) % UINT32_CARD

structure SeededRandom where
  seed : Int
deriving DecidableEq, Repr

/-- First reassignment of t: Math.imul(t ^ t >>> 15, t | 1). -/
def mulberryT1 (t0 : Nat) : Nat := imul32 (t0 ^^^ (t0 >>> 15)) (t0 ||| 1)

/-- Second reassignment: t ^= t + Math.imul(t ^ t >>> 7, t | 61); the
plain + is coerced back to 32 bits by the ^= (ToInt32), whose bit
pattern is addition modulo 2^32. -/
def mulberryT2 (t0 : Nat) : Nat :=
  mulberryT1 t0 ^^^
    ((mulberryT1 t0 +
        imul32 (mulberryT1 t0 ^^^ (mulberryT1 t0 >>> 7)) (mulberryT1 t0 ||| 61)) %
      UINT32_CARD)

/-- The 32-bit output: (t ^ t >>> 14) >>> 0. -/
def mulberryMix (t0 : Nat) : Nat := mulberryT2 t0 ^^^ (mulberryT2 t0 >>> 14)

/-- One Mulberry32 step. Returns the new state and the 32-bit output u;
the JS float returned by next() is u / 2^32. -/
def SeededRandom.next (r : SeededRandom) : SeededRandom × Nat :=
  let s : Int := r.seed + 0x6D2B79F5
  (⟨s⟩, mulberryMix ((s % (UINT32_CARD : Int)).toNat))

/-- nextInt(min, max): Math.floor(next() * (max - min)) + min.
The float product is exact for the ranges the generator uses, so the
floor is the exact rational floor, i.e. flooring integer division. -/
def SeededRandom.nextInt (r : SeededRandom) (min max : Int) : SeededRandom × Int :=
  let p := r.next
  (p.1, Int.fdiv ((p.2 : Int) * (max - min)) (UINT32_CARD : Int) + min)

/-- chance(probability): next() < probability. -/
def SeededRandom.chance (r : SeededRandom) (probability : ℚ) : SeededRandom × Bool :=
  let p := r.next
  (p.1, decide ((p.2 : ℚ) / (UINT32_CARD : ℚ) < probability))

/-- pick(arr): arr[nextInt(0, arr.length)]. The default is never used on
the nonempty arrays the generator picks from. -/
def SeededRandom.pick [Inhabited α] (r : SeededRandom) (arr : List α) :
    SeededRandom × α :=
  let p := r.nextInt 0 arr.length
  (p.1, arr.getD p.2.toNat default)

/-! ## Generator data model -/

structure DungeonConfig where
  seed : Int
  minRooms : Int
  maxRooms : Int
  treasureRoomChance : ℚ
  shrineRoomChance : ℚ
  branchingFactor : ℚ
deriving DecidableEq, Repr

/-- The Partial<DungeonConfig> accepted by the constructor: every field
optional. -/
structure DungeonConfigInput where
  seed : Option Int
  minRooms : Option Int
  maxRooms : Option Int
  treasureRoomChance : Option ℚ
  shrineRoomChance : Option ℚ
  branchingFactor : Option ℚ
deriving DecidableEq, Repr

/-- Constructor defaulting. randomSeed models the ambient
Math.floor(Math.random() * 999999) drawn when no seed is supplied. -/
def mkConfig (c : DungeonConfigInput) (randomSeed : Int) : DungeonConfig where
  seed := c.seed.getD randomSeed
  minRooms := c.minRooms.getD 8
  maxRooms := c.maxRooms.getD 15
  treasureRoomChance := c.treasureRoomChance.getD (15 / 100)
  shrineRoomChance := c.shrineRoomChance.getD (8 / 100)
  branchingFactor := c.branchingFactor.getD (4 / 10)

structure GridCell where
  roomId : Option String
  occupied : Bool
deriving DecidableEq, Repr

inductive Variant where
  | treasure
  | shrine
  | empty
deriving DecidableEq, Repr

/-- The deterministic data createRoomGroup records on the THREE.Group it
builds: which catalog constructor ran (the room type, and for dead ends
the entrance direction and variant passed to createDeadEndRoom), the
world position it assigned, and the userData it wrote. -/
structure GroupDesc where
  builtType : RoomType
  entrance : Option Direction
  variant : Option Variant
  posX : ℚ
  posZ : ℚ
  roomId : String
  gridX : Int
  gridZ : Int
deriving DecidableEq, Repr

structure RoomPlacement where
  id : String
  type : RoomType
  gridX : Int
  gridZ : Int
  worldX : ℚ
  worldZ : ℚ
  connections : List (Direction × Option String)
  group : Option GroupDesc
deriving DecidableEq, Repr

/-- The DungeonGenerator instance state. The grid Map uses string keys
built by gridKey(x, z) = the string x ++ "," ++ z; that encoding is
injective on integer pairs, so the grid is keyed by the pair itself. -/
structure GenState where
  config : DungeonConfig
  rng : SeededRandom
  grid : List ((Int × Int) × GridCell)
  rooms : List (String × RoomPlacement)
  roomIdCounter : Nat
  treasureRoomCount : Nat
  shrineRoomCount : Nat
deriving DecidableEq, Repr

/-- The constructor (with the config already defaulted by mkConfig). -/
def mkGenerator (config : DungeonConfig) : GenState where
  config := config
  rng := ⟨config.seed⟩
  grid := []
  rooms := []
  roomIdCounter := 0
  treasureRoomCount := 0
  shrineRoomCount := 0

def mkRoomId (n : Nat) : String := "room_" ++ Nat.repr n

def isOccupied (st : GenState) (gridX gridZ : Int) : Bool :=
  match alGet? st.grid (gridX, gridZ) with
  | some cell => cell.occupied
  | none => false

def markOccupied (st : GenState) (gridX gridZ : Int) (roomId : String) : GenState :=
  { st with grid := alSet st.grid (gridX, gridZ) ⟨some roomId, true⟩ }

/-- createRoomGroup(room, variant?). For dead ends the entrance is the
first direction whose connection target is non-null (default south), and
the variant defaults to empty. The group is positioned at the room's
world coordinates and tagged with roomId/gridX/gridZ in userData. -/
def createRoomGroup (room : RoomPlacement) (variant : Option Variant) : GroupDesc where
  builtType := room.type
  entrance :=
    match room.type with
    | .dead_end =>
      some (match room.connections.find? (fun p => p.2.isSome) with
            | some p => p.1
            | none => .south)
    | _ => none
  variant :=
    match room.type with
    | .dead_end => some (variant.getD .empty)
    | _ => none
  posX := room.worldX
  posZ := room.worldZ
  roomId := room.id
  gridX := room.gridX
  gridZ := room.gridZ

/-- placeRoom: checks occupancy, then allocates the next id, inserts the
room (empty connections, no geometry yet) and marks the cell occupied. -/
def placeRoom (st : GenState) (gridX gridZ : Int) (type : RoomType) :
    GenState × Option RoomPlacement :=
  if isOccupied st gridX gridZ then (st, none)
  else
    let id := mkRoomId st.roomIdCounter
    let room : RoomPlacement :=
      { id := id
        type := type
        gridX := gridX
        gridZ := gridZ
        worldX := (gridX : ℚ) * 3 * TILE_SIZE
        worldZ := (gridZ : ℚ) * 3 * TILE_SIZE
        connections := []
        group := none }
    let st1 := { st with
      rooms := alSet st.rooms id room
      roomIdCounter := st.roomIdCounter + 1 }
    (markOccupied st1 gridX gridZ id, some room)

def getAvailableDirections (st : GenState) (room : RoomPlacement) : List Direction :=
  [Direction.north, .south, .east, .west].filter fun dir =>
    !(alHas room.connections dir) &&
      !(isOccupied st (room.gridX + (DIRECTION_OFFSET dir).1)
                      (room.gridZ + (DIRECTION_OFFSET dir).2))

/-- expandFrom(room): pick an open direction, choose the new room type
(tiered policy), place, link bidirectionally, build the new geometry.
Returns the id of the new room, or none if the room cannot expand. -/
def expandFrom (st : GenState) (roomId : String) : GenState × Option String :=
  match alGet? st.rooms roomId with
  | none => (st, none)
  | some room =>
    let available := getAvailableDirections st room
    if available = [] then (st, none)
    else
      let p1 := st.rng.pick available
      let dir := p1.2
      let offset := DIRECTION_OFFSET dir
      let newGridX := room.gridX + offset.1
      let newGridZ := room.gridZ + offset.2
      let roomCount := st.rooms.length
      let p2 : SeededRandom × RoomType :=
        if roomCount < 3 then
          let c := p1.1.chance (1 / 2)
          (c.1, if c.2 then .corridor_ns else .basic)
        else
          let c := p1.1.chance st.config.branchingFactor
          if c.2 then (c.1, .junction)
          else c.1.pick [RoomType.basic, .corridor_ns, .corridor_ew]
      let st1 := { st with rng := p2.1 }
      let pr := placeRoom st1 newGridX newGridZ p2.2
      match pr.2 with
      | none => (pr.1, none)
      | some newRoom =>
        let room1 := { room with
          connections := alSet room.connections dir (some newRoom.id) }
        let newRoom1 := { newRoom with
          connections := alSet newRoom.connections (OPPOSITE_DIRECTION dir) (some room.id) }
        let newRoom2 := { newRoom1 with group := some (createRoomGroup newRoom1 none) }
        let st2 := { pr.1 with
          rooms := alSet (alSet pr.1.rooms roomId room1) newRoom.id newRoom2 }
        (st2, some newRoom.id)

/-- Number of live (non-null) connections of a room. -/
def liveConnCount (room : RoomPlacement) : Nat :=
  (room.connections.filter fun p => p.2.isSome).length

/-- The dead-end special pass, iterating the room map in insertion
order. JS evaluation order is kept: the treasure chance is always rolled
for a qualifying dead end; the shrine chance is rolled only when the
treasure branch is not taken. -/
def addSpecialRoomsGo (st : GenState) (ids : List String) : GenState :=
  match ids with
  | [] => st
  | id :: rest =>
    let st' :=
      match alGet? st.rooms id with
      | none => st
      | some room =>
        if liveConnCount room = 1 ∧ room.type ≠ RoomType.junction then
          let c1 := st.rng.chance st.config.treasureRoomChance
          if c1.2 ∧ st.treasureRoomCount < 2 then
            let room1 := { room with type := RoomType.dead_end }
            let room2 := { room1 with
              group := some (createRoomGroup room1 (some .treasure)) }
            { st with
              rng := c1.1
              rooms := alSet st.rooms id room2
              treasureRoomCount := st.treasureRoomCount + 1 }
          else
            let c2 := c1.1.chance st.config.shrineRoomChance
            if c2.2 ∧ st.shrineRoomCount < 1 then
              let room1 := { room with type := RoomType.dead_end }
              let room2 := { room1 with
                group := some (createRoomGroup room1 (some .shrine)) }
              { st with
                rng := c2.1
                rooms := alSet st.rooms id room2
                shrineRoomCount := st.shrineRoomCount + 1 }
            else { st with rng := c2.1 }
        else st
    addSpecialRoomsGo st' rest

def addSpecialRooms (st : GenState) : GenState :=
  addSpecialRoomsGo st (st.rooms.map Prod.fst)

/-- The drawn target room count: nextInt(minRooms, maxRooms + 1), the
first PRNG draw of generate(). -/
def targetRoomCount (g : GenState) : Int :=
  (g.rng.nextInt g.config.minRooms (g.config.maxRooms + 1)).2

/-- The growth loop: while rooms.size < target and the frontier is
nonempty, pick a frontier room, try to expand it; a room that cannot
expand is removed from the frontier, a new room joins it. The loop is
driven by fuel; generate supplies fuel that provably exceeds the loop's
decreasing measure, so the fuel-exhausted branch is never taken. -/
def generateLoop (target : Int) : Nat → GenState → List String → GenState × List String
  | 0, st, frontier => (st, frontier)
  | fuel + 1, st, frontier =>
    if (st.rooms.length : Int) < target ∧ frontier ≠ [] then
      let p := st.rng.pick frontier
      let currentId := p.2
      let st1 := { st with rng := p.1 }
      let e := expandFrom st1 currentId
      match e.2 with
      | none => generateLoop target fuel e.1 (frontier.erase currentId)
      | some newId => generateLoop target fuel e.1 (frontier ++ [newId])
    else (st, frontier)

/-- generate() up to (not including) the special-room pass; also returns
the final frontier. -/
def generatePlacement (g : GenState) : GenState × List String :=
  let st0 := { g with
    grid := []
    rooms := []
    roomIdCounter := 0
    treasureRoomCount := 0
    shrineRoomCount := 0 }
  let pt := st0.rng.nextInt st0.config.minRooms (st0.config.maxRooms + 1)
  let target := pt.2
  let st1 := { st0 with rng := pt.1 }
  let ps := placeRoom st1 0 0 RoomType.junction
  match ps.2 with
  | none => (ps.1, [])
  | some spawn =>
    let spawn1 := { spawn with group := some (createRoomGroup spawn none) }
    let st2 := { ps.1 with rooms := alSet ps.1.rooms spawn.id spawn1 }
    generateLoop target (1 + 2 * (target - 1).toNat) st2 [spawn.id]

/-- generate(): reset, draw the target, place the junction seed room,
grow, then run the special-room pass, returning the final state (whose
rooms field is the returned room map). -/
def generate (g : GenState) : GenState :=
  addSpecialRooms (generatePlacement g).1

/-! ## RoomManager and collision index (src/world/roomManager.ts, room.ts)

A THREE.Group is modelled by what addRoom and checkCollision read from
it: its name, its userData (the Partial RoomMetadata), and the descendants
visited by traverse, each carrying its userData tags and the world-space
bounding box Box3.setFromObject would compute for it. Only the x/z extents
of a box participate in checkCollision. -/

structure RoomDimensions where
  width : ℚ
  depth : ℚ
  height : ℚ
deriving DecidableEq, Repr

structure RoomConnection where
  positionX : ℚ
  positionY : ℚ
  positionZ : ℚ
  direction : Direction
  connectedTo : Option String
deriving DecidableEq, Repr

/-- Record<Direction, RoomConnection | null>. -/
structure ConnectionsRec where
  north : Option RoomConnection
  south : Option RoomConnection
  east : Option RoomConnection
  west : Option RoomConnection
deriving DecidableEq, Repr

/-- World-space axis-aligned box; y bounds are irrelevant to
checkCollision and omitted. -/
structure Box3 where
  minX : ℚ
  minZ : ℚ
  maxX : ℚ
  maxZ : ℚ
deriving DecidableEq, Repr

/-- A descendant visited by roomGroup.traverse, with the userData fields
the room manager consults and its cached world-space bounding box. -/
structure SceneChild where
  isCollisionMesh : Bool
  meshType : Option String
  box : Box3
deriving DecidableEq, Repr

/-- Partial RoomMetadata read from roomGroup.userData. -/
structure GroupUserData where
  name : Option String
  dimensions : Option RoomDimensions
  connections : Option ConnectionsRec
  theme : Option String
  difficulty : Option String
deriving DecidableEq, Repr

structure ThreeGroup where
  name : Option String
  userData : GroupUserData
  children : List SceneChild
deriving DecidableEq, Repr

/-- RoomData: metadata plus the group reference. -/
structure RoomData where
  name : String
  dimensions : RoomDimensions
  connections : ConnectionsRec
  theme : String
  difficulty : String
  group : ThreeGroup
deriving DecidableEq, Repr

structure RoomManagerState where
  rooms : List RoomData
  collisionBoxes : List (Box3 × SceneChild)
  sceneChildren : List ThreeGroup
deriving DecidableEq, Repr

def initialRoomManager : RoomManagerState where
  rooms := []
  collisionBoxes := []
  sceneChildren := []

/-- addRoom: default missing metadata, record the room, add the group to
the scene, and index every collision-tagged descendant except floors. -/
def addRoom (m : RoomManagerState) (roomGroup : ThreeGroup) : RoomManagerState :=
  let roomData : RoomData :=
    { name := (roomGroup.userData.name.orElse fun _ => roomGroup.name).getD "UnnamedRoom"
      dimensions := roomGroup.userData.dimensions.getD ⟨1, 1, 1⟩
      connections := roomGroup.userData.connections.getD ⟨none, none, none, none⟩
      theme := roomGroup.userData.theme.getD "default"
      difficulty := roomGroup.userData.difficulty.getD "normal"
      group := roomGroup }
  let newBoxes := roomGroup.children.filterMap fun child =>
    if child.isCollisionMesh then
      if child.meshType = some "floor" then none
      else some (child.box, child)
    else none
  { rooms := m.rooms ++ [roomData]
    sceneChildren := m.sceneChildren ++ [roomGroup]
    collisionBoxes := m.collisionBoxes ++ newBoxes }

/-- checkCollision(x, z, radius): point-in-expanded-box scan, true on the
first overlapping box. -/
def checkCollision (m : RoomManagerState) (x z radius : ℚ) : Bool :=
  m.collisionBoxes.any fun cb =>
    decide (cb.1.minX - radius ≤ x) && decide (x ≤ cb.1.maxX + radius) &&
    decide (cb.1.minZ - radius ≤ z) && decide (z ≤ cb.1.maxZ + radius)

/-! ## PRNG bounds -/

theorem UINT32_CARD_eq : UINT32_CARD = 2 ^ 32 := by decide

theorem UINT32_CARD_pos : 0 < UINT32_CARD := by decide

theorem shiftRight_le_self (x n : Nat) : x >>> n ≤ x := by
  rw [Nat.shiftRight_eq_div_pow]
  exact Nat.div_le_self _ _

theorem imul32_lt (a b : Nat) : imul32 a b < UINT32_CARD :=
  Nat.mod_lt _ UINT32_CARD_pos

theorem mulberryT2_lt (t0 : Nat) : mulberryT2 t0 < UINT32_CARD := by
  rw [mulberryT2, UINT32_CARD_eq]
  exact Nat.xor_lt_two_pow (UINT32_CARD_eq ▸ imul32_lt _ _)
    (UINT32_CARD_eq ▸ Nat.mod_lt _ UINT32_CARD_pos)

theorem mulberryMix_lt (t0 : Nat) : mulberryMix t0 < UINT32_CARD := by
  rw [mulberryMix, UINT32_CARD_eq]
  exact Nat.xor_lt_two_pow (UINT32_CARD_eq ▸ mulberryT2_lt t0)
    (Nat.lt_of_le_of_lt (shiftRight_le_self _ _) (UINT32_CARD_eq ▸ mulberryT2_lt t0))

theorem next_snd_lt (r : SeededRandom) : (r.next).2 < UINT32_CARD :=
  mulberryMix_lt _

/-- nextInt really is an inclusive-exclusive draw. -/
theorem nextInt_snd_bounds (r : SeededRandom) (lo hi : Int) (h : lo < hi) :
    lo ≤ (r.nextInt lo hi).2 ∧ (r.nextInt lo hi).2 < hi := by
  have hu : ((r.next).2 : Int) < (UINT32_CARD : Int) := by
    exact_mod_cast next_snd_lt r
  have hu0 : (0 : Int) ≤ ((r.next).2 : Int) := Int.ofNat_nonneg _
  have hd : (0 : Int) < hi - lo := by omega
  have hcard : (0 : Int) < (UINT32_CARD : Int) := by decide
  have hexp : (r.nextInt lo hi).2 =
      Int.fdiv (((r.next).2 : Int) * (hi - lo)) (UINT32_CARD : Int) + lo := rfl
  rw [hexp, Int.fdiv_eq_ediv _ (le_of_lt hcard)]
  have hlow : 0 ≤ ((r.next).2 : Int) * (hi - lo) / (UINT32_CARD : Int) :=
    Int.ediv_nonneg (mul_nonneg hu0 (le_of_lt hd)) (le_of_lt hcard)
  have hup : ((r.next).2 : Int) * (hi - lo) / (UINT32_CARD : Int) < hi - lo := by
    rw [Int.ediv_lt_iff_lt_mul hcard]
    calc ((r.next).2 : Int) * (hi - lo)
        < (UINT32_CARD : Int) * (hi - lo) := by
          exact mul_lt_mul_of_pos_right hu hd
      _ = (hi - lo) * (UINT32_CARD : Int) := mul_comm _ _
  omega

/-- pick returns an element of a nonempty array. -/
theorem pick_snd_mem [Inhabited α] (r : SeededRandom) (arr : List α) (h : arr ≠ []) :
    (r.pick arr).2 ∈ arr := by
  have hlen : (0 : Int) < (arr.length : Int) := by
    have : 0 < arr.length := List.length_pos.mpr h
    exact_mod_cast this
  obtain ⟨h1, h2⟩ := nextInt_snd_bounds r 0 arr.length hlen
  have hexp : (r.pick arr).2 = arr.getD ((r.nextInt 0 arr.length).2).toNat default := rfl
  have hi : ((r.nextInt 0 (arr.length : Int)).2).toNat < arr.length := by omega
  rw [hexp, List.getD_eq_getElem?_getD, List.getElem?_eq_getElem hi]
  exact List.getElem_mem hi

/-! ## Claim C1: determinism of generation -/

/-- Claim C1: for any fixed integer seed and identical configuration, two
independent generate() runs produce identical room graphs (same ids,
types, grid coordinates and connection maps). The only ambient
randomness, the Math.random fallback seed drawn in the constructor, is
ignored whenever a seed is supplied, so the two runs return equal room
maps. -/
theorem generate_deterministic (c : DungeonConfigInput) (s : Int) (r1 r2 : Int)
    (h : c.seed = some s) :
    (generate (mkGenerator (mkConfig c r1))).rooms =
      (generate (mkGenerator (mkConfig c r2))).rooms := by
  have hc : mkConfig c r1 = mkConfig c r2 := by
    simp [mkConfig, h]
  rw [hc]

def c1Input : DungeonConfigInput :=
  ⟨some 42, some 8, some 15, some (15 / 100), some (8 / 100), some (4 / 10)⟩

/-- Witness for C1 at a concrete configuration with seed 42 and two
different ambient fallback seeds. -/
theorem generate_deterministic_witness :
    c1Input.seed = some 42 ∧
    (generate (mkGenerator (mkConfig c1Input 0))).rooms =
      (generate (mkGenerator (mkConfig c1Input 987654))).rooms :=
  ⟨rfl, generate_deterministic c1Input 42 0 987654 rfl⟩

/-! ## Claim C5: bounds of the drawn target room count -/

/-- The configuration of the C5 counterexample: seed 1, minRooms 0,
maxRooms 1. -/
def c5Config : DungeonConfig := ⟨1, 0, 1, 0, 0, 0⟩

/-- Counterexample to C5 as stated: with seed 1, minRooms 0 and
maxRooms 1, the target drawn at the start of generate() equals maxRooms,
so maxRooms is not an exclusive bound on the target. -/
theorem target_bounds_counterexample :
    c5Config.minRooms < c5Config.maxRooms ∧
    targetRoomCount (mkGenerator c5Config) = c5Config.maxRooms ∧
    ¬ targetRoomCount (mkGenerator c5Config) < c5Config.maxRooms := by
  refine ⟨by decide, by decide, by decide⟩

/-- Claim C5 (amended): for every configuration with minRooms < maxRooms,
the target room count drawn once at the start of generate() satisfies
minRooms ≤ target ≤ maxRooms: both bounds are inclusive, because the
draw is nextInt(minRooms, maxRooms + 1). -/
theorem target_bounds (g : GenState) (h : g.config.minRooms < g.config.maxRooms) :
    g.config.minRooms ≤ targetRoomCount g ∧ targetRoomCount g ≤ g.config.maxRooms := by
  have h1 : g.config.minRooms < g.config.maxRooms + 1 := by omega
  obtain ⟨ha, hb⟩ :=
    nextInt_snd_bounds g.rng g.config.minRooms (g.config.maxRooms + 1) h1
  have hexp : targetRoomCount g =
      (g.rng.nextInt g.config.minRooms (g.config.maxRooms + 1)).2 := rfl
  rw [hexp]
  omega

/-- Witness for the amended C5 at a concrete configuration. -/
theorem target_bounds_witness :
    (mkGenerator ⟨7, 8, 15, 0, 0, 0⟩).config.minRooms <
      (mkGenerator ⟨7, 8, 15, 0, 0, 0⟩).config.maxRooms ∧
    ((mkGenerator ⟨7, 8, 15, 0, 0, 0⟩).config.minRooms ≤
        targetRoomCount (mkGenerator ⟨7, 8, 15, 0, 0, 0⟩) ∧
      targetRoomCount (mkGenerator ⟨7, 8, 15, 0, 0, 0⟩) ≤
        (mkGenerator ⟨7, 8, 15, 0, 0, 0⟩).config.maxRooms) :=
  ⟨by decide, target_bounds (mkGenerator ⟨7, 8, 15, 0, 0, 0⟩) (by decide)⟩

/-! ## Claim C7: checkCollision expanded-box semantics -/

def unitWallChild : SceneChild := ⟨true, some "wall", ⟨0, 0, 1, 1⟩⟩

def unitWallGroup : ThreeGroup :=
  ⟨some "WallRoom", ⟨none, none, none, none, none⟩, [unitWallChild]⟩

/-- A manager holding exactly the one indexed wall box spanning
[0,1] x [0,1] in (x,z). -/
def wallOnlyManager : RoomManagerState := addRoom initialRoomManager unitWallGroup

/-- Claim C7: checkCollision(x, z, radius) is true iff some indexed box,
expanded by radius on each axis, contains the query point; and on a
single indexed wall box spanning [0,1] x [0,1], the query (1.05, 0.5)
collides with radius 0.1 but not with radius 0.01. -/
theorem checkCollision_expanded_box :
    (∀ (m : RoomManagerState) (x z radius : ℚ),
      checkCollision m x z radius = true ↔
        ∃ cb ∈ m.collisionBoxes,
          cb.1.minX - radius ≤ x ∧ x ≤ cb.1.maxX + radius ∧
          cb.1.minZ - radius ≤ z ∧ z ≤ cb.1.maxZ + radius) ∧
    checkCollision wallOnlyManager (105 / 100) (1 / 2) (1 / 10) = true ∧
    checkCollision wallOnlyManager (105 / 100) (1 / 2) (1 / 100) = false := by
  refine ⟨?_, ?_, ?_⟩
  · intro m x z radius
    simp [checkCollision, List.any_eq_true, and_assoc]
  · with_unfolding_all decide
  · with_unfolding_all decide

/-! ## Claim C8: floor volumes never enter the movement collision index -/

def unitFloorChild : SceneChild := ⟨true, some "floor", ⟨0, 0, 1, 1⟩⟩

def floorOnlyGroup : ThreeGroup :=
  ⟨some "FloorRoom", ⟨none, none, none, none, none⟩, [unitFloorChild]⟩

/-- A group containing both a floor and a wall collision mesh, as every
catalog room does. -/
def mixedGroup : ThreeGroup :=
  ⟨some "MixedRoom", ⟨none, none, none, none, none⟩, [unitFloorChild, unitWallChild]⟩

/-- Claim C8: a floor-tagged collision mesh registered via addRoom is
never entered into the movement collision index, whatever else the group
contains: its index entry is present after addRoom only if it was
already present before (first conjunct), and every collision query
answers exactly as if the group's floor children did not exist (second
conjunct).  Consequently a floor mesh never causes checkCollision to
return true; in particular a manager holding only a floor volume reports
no collision for any query, the floor volume's center included (third
conjunct). -/
theorem addRoom_floor_excluded :
    (∀ (m : RoomManagerState) (g : ThreeGroup) (c : SceneChild),
      c ∈ g.children → c.meshType = some "floor" →
      ((c.box, c) ∈ (addRoom m g).collisionBoxes ↔ (c.box, c) ∈ m.collisionBoxes)) ∧
    (∀ (m : RoomManagerState) (g : ThreeGroup) (x z radius : ℚ),
      checkCollision (addRoom m g) x z radius =
        checkCollision
          (addRoom m { g with
            children := g.children.filter fun c => !(decide (c.meshType = some "floor")) })
          x z radius) ∧
    (∀ x z radius : ℚ,
      checkCollision (addRoom initialRoomManager floorOnlyGroup) x z radius = false) := by
  have hboxes : ∀ (m : RoomManagerState) (g : ThreeGroup),
      (addRoom m g).collisionBoxes = m.collisionBoxes ++
        (g.children.filterMap fun child =>
          if child.isCollisionMesh then
            if child.meshType = some "floor" then none
            else some (child.box, child)
          else none) := fun m g => rfl
  refine ⟨?_, ?_, ?_⟩
  · intro m g c hc hfloor
    rw [hboxes, List.mem_append]
    constructor
    · intro h1
      rcases h1 with h1 | h1
      · exact h1
      · exfalso
        obtain ⟨a, ha, hfa⟩ := List.mem_filterMap.mp h1
        by_cases hcm : a.isCollisionMesh
        · rw [if_pos hcm] at hfa
          by_cases hft : a.meshType = some "floor"
          · rw [if_pos hft] at hfa
            cases hfa
          · rw [if_neg hft] at hfa
            injection hfa with hfa1
            have hac : a = c := congrArg Prod.snd hfa1
            rw [hac] at hft
            exact hft hfloor
        · rw [if_neg hcm] at hfa
          cases hfa
    · intro h1
      exact Or.inl h1
  · intro m g x z radius
    have hsame : (g.children.filterMap fun child =>
        if child.isCollisionMesh then
          if child.meshType = some "floor" then none
          else some (child.box, child)
        else none) =
        ((g.children.filter fun c => !(decide (c.meshType = some "floor"))).filterMap
          fun child =>
            if child.isCollisionMesh then
              if child.meshType = some "floor" then none
              else some (child.box, child)
            else none) := by
      induction g.children with
      | nil => rfl
      | cons c rest ih =>
        by_cases hft : c.meshType = some "floor"
        · have hdrop : (decide (c.meshType = some "floor")) = true := by
            rw [decide_eq_true_eq]
            exact hft
          have hnone : (if c.isCollisionMesh then
              if c.meshType = some "floor" then none
              else some (c.box, c)
            else none) = (none : Option (Box3 × SceneChild)) := by
            by_cases hcm : c.isCollisionMesh
            · rw [if_pos hcm, if_pos hft]
            · rw [if_neg hcm]
          rw [List.filter_cons, hdrop]
          simp only [Bool.not_true, if_false]
          rw [List.filterMap_cons, hnone]
          exact ih
        · have hkeep : (decide (c.meshType = some "floor")) = false := by
            rw [decide_eq_false_iff_not]
            exact hft
          rw [List.filter_cons, hkeep]
          simp only [Bool.not_false, if_true]
          rw [List.filterMap_cons, List.filterMap_cons]
          cases hf : (if c.isCollisionMesh then
              if c.meshType = some "floor" then none
              else some (c.box, c)
            else none) with
          | none => exact ih
          | some b => rw [ih]
    unfold checkCollision
    rw [hboxes, hboxes, hsame]
  · intro x z radius
    have hb : (addRoom initialRoomManager floorOnlyGroup).collisionBoxes = [] := by
      with_unfolding_all rfl
    unfold checkCollision
    rw [hb]
    rfl

/-- Witness for C8: in a concrete group holding both a floor and a wall
collision mesh, the floor child's entry is absent from the index after
addRoom (the index was empty before). -/
theorem addRoom_floor_excluded_witness :
    unitFloorChild ∈ mixedGroup.children ∧
    unitFloorChild.meshType = some "floor" ∧
    ((unitFloorChild.box, unitFloorChild) ∈
        (addRoom initialRoomManager mixedGroup).collisionBoxes ↔
      (unitFloorChild.box, unitFloorChild) ∈ initialRoomManager.collisionBoxes) :=
  ⟨by decide, rfl,
    addRoom_floor_excluded.1 initialRoomManager mixedGroup unitFloorChild (by decide) rfl⟩

/-! ## Claim C9: addRoom defaults missing metadata -/

/-- Claim C9: for a group missing every metadata field, addRoom (a total
function: it never throws) records the room with the documented defaults
(unit dimensions, all four connections null, theme "default",
difficulty "normal", name from the group or "UnnamedRoom" when absent),
still adds the group to the scene, and still indexes its collidable
children. -/
theorem addRoom_metadata_defaults (m : RoomManagerState) (g : ThreeGroup)
    (h : g.userData = ⟨none, none, none, none, none⟩) :
    (addRoom m g).rooms = m.rooms ++
      [{ name := g.name.getD "UnnamedRoom"
         dimensions := ⟨1, 1, 1⟩
         connections := ⟨none, none, none, none⟩
         theme := "default"
         difficulty := "normal"
         group := g }] ∧
    (addRoom m g).sceneChildren = m.sceneChildren ++ [g] ∧
    (addRoom m g).collisionBoxes = m.collisionBoxes ++
      (g.children.filterMap fun child =>
        if child.isCollisionMesh then
          if child.meshType = some "floor" then none
          else some (child.box, child)
        else none) := by
  refine ⟨?_, rfl, rfl⟩
  simp [addRoom, h]

def bareGroup : ThreeGroup :=
  ⟨none, ⟨none, none, none, none, none⟩, [unitWallChild]⟩

/-- Witness for C9: a concrete nameless group with empty userData and one
wall child. -/
theorem addRoom_metadata_defaults_witness :
    bareGroup.userData = ⟨none, none, none, none, none⟩ ∧
    ((addRoom initialRoomManager bareGroup).rooms = initialRoomManager.rooms ++
      [{ name := bareGroup.name.getD "UnnamedRoom"
         dimensions := ⟨1, 1, 1⟩
         connections := ⟨none, none, none, none⟩
         theme := "default"
         difficulty := "normal"
         group := bareGroup }] ∧
    (addRoom initialRoomManager bareGroup).sceneChildren =
      initialRoomManager.sceneChildren ++ [bareGroup] ∧
    (addRoom initialRoomManager bareGroup).collisionBoxes =
      initialRoomManager.collisionBoxes ++
      (bareGroup.children.filterMap fun child =>
        if child.isCollisionMesh then
          if child.meshType = some "floor" then none
          else some (child.box, child)
        else none)) :=
  ⟨rfl, addRoom_metadata_defaults initialRoomManager bareGroup rfl⟩

/-! ## Injectivity of the decimal room-id encoding

Room ids are the strings room_0, room_1, ...; freshness of a newly
allocated id needs injectivity of the decimal printer Nat.repr, proved
here through Mathlib's Nat.digits. -/

theorem digitChar_inj_lt10 (a b : Nat) (ha : a < 10) (hb : b < 10)
    (h : Nat.digitChar a = Nat.digitChar b) : a = b := by
  interval_cases a <;> interval_cases b <;> simp_all [Nat.digitChar]

theorem map_digitChar_inj : ∀ l1 l2 : List Nat,
    (∀ x ∈ l1, x < 10) → (∀ x ∈ l2, x < 10) →
    l1.map Nat.digitChar = l2.map Nat.digitChar → l1 = l2
  | [], [], _, _, _ => rfl
  | [], _ :: _, _, _, h => by simp at h
  | _ :: _, [], _, _, h => by simp at h
  | a :: l1, b :: l2, h1, h2, h => by
    simp only [List.map_cons, List.cons.injEq] at h
    have hab : a = b :=
      digitChar_inj_lt10 a b (h1 a (List.mem_cons_self _ _))
        (h2 b (List.mem_cons_self _ _)) h.1
    have htl : l1 = l2 :=
      map_digitChar_inj l1 l2 (fun x hx => h1 x (List.mem_cons_of_mem _ hx))
        (fun x hx => h2 x (List.mem_cons_of_mem _ hx)) h.2
    rw [hab, htl]

theorem toDigitsCore_eq_digits : ∀ (fuel n : Nat) (ds : List Char),
    n < fuel → 0 < n →
    Nat.toDigitsCore 10 fuel n ds =
      ((Nat.digits 10 n).map Nat.digitChar).reverse ++ ds := by
  intro fuel
  induction fuel with
  | zero => intro n ds h _; omega
  | succ fuel ih =>
    intro n ds h hn
    have hdig : Nat.digits 10 n = n % 10 :: Nat.digits 10 (n / 10) :=
      Nat.digits_def' (by norm_num) hn
    by_cases hq : n / 10 = 0
    · have : Nat.toDigitsCore 10 (fuel + 1) n ds = Nat.digitChar (n % 10) :: ds := by
        simp [Nat.toDigitsCore, hq]
      rw [this, hdig, hq]
      simp
    · have hstep : Nat.toDigitsCore 10 (fuel + 1) n ds =
          Nat.toDigitsCore 10 fuel (n / 10) (Nat.digitChar (n % 10) :: ds) := by
        simp [Nat.toDigitsCore, hq]
      have hlt : n / 10 < fuel := by
        have : n / 10 < n := Nat.div_lt_self hn (by norm_num)
        omega
      rw [hstep, ih (n / 10) (Nat.digitChar (n % 10) :: ds) hlt (Nat.pos_of_ne_zero hq),
        hdig]
      simp

theorem toDigits_eq_digits (n : Nat) (hn : 0 < n) :
    Nat.toDigits 10 n = ((Nat.digits 10 n).map Nat.digitChar).reverse := by
  have h := toDigitsCore_eq_digits (n + 1) n [] (by omega) hn
  simpa [Nat.toDigits] using h

theorem toDigits_inj (m n : Nat) (h : Nat.toDigits 10 m = Nat.toDigits 10 n) :
    m = n := by
  rcases Nat.eq_zero_or_pos m with hm | hm <;>
    rcases Nat.eq_zero_or_pos n with hn | hn
  · rw [hm, hn]
  · exfalso
    subst hm
    rw [toDigits_eq_digits n hn] at h
    have h0 : Nat.toDigits 10 0 = ['0'] := rfl
    rw [h0] at h
    have hne : Nat.digits 10 n ≠ [] :=
      Nat.digits_ne_nil_iff_ne_zero.mpr (Nat.pos_iff_ne_zero.mp hn)
    obtain ⟨d, l, hd⟩ := List.exists_cons_of_ne_nil hne
    rcases List.eq_nil_or_concat l with hl | ⟨l2, b, hl⟩
    · subst hl
      rw [hd] at h
      simp at h
      have hd10 : d < 10 := Nat.digits_lt_base (by norm_num) (hd ▸ List.mem_cons_self _ _)
      have : d = 0 := by
        have h00 : Nat.digitChar d = '0' := h.symm
        have : Nat.digitChar 0 = '0' := rfl
        exact digitChar_inj_lt10 d 0 hd10 (by norm_num) (by rw [h00, this])
      have hof := Nat.ofDigits_digits 10 n
      rw [hd, this] at hof
      simp [Nat.ofDigits] at hof
      omega

    · subst hl
      rw [hd] at h
      simp at h
  · exfalso
    subst hn
    rw [toDigits_eq_digits m hm] at h
    have h0 : Nat.toDigits 10 0 = ['0'] := rfl
    rw [h0] at h
    have hne : Nat.digits 10 m ≠ [] :=
      Nat.digits_ne_nil_iff_ne_zero.mpr (Nat.pos_iff_ne_zero.mp hm)
    obtain ⟨d, l, hd⟩ := List.exists_cons_of_ne_nil hne
    rcases List.eq_nil_or_concat l with hl | ⟨l2, b, hl⟩
    · subst hl
      rw [hd] at h
      simp at h
      have hd10 : d < 10 := Nat.digits_lt_base (by norm_num) (hd ▸ List.mem_cons_self _ _)
      have : d = 0 := by
        have h00 : Nat.digitChar d = '0' := h
        have hz : Nat.digitChar 0 = '0' := rfl
        exact digitChar_inj_lt10 d 0 hd10 (by norm_num) (by rw [h00, hz])
      have hof := Nat.ofDigits_digits 10 m
      rw [hd, this] at hof
      simp [Nat.ofDigits] at hof
      omega

    · subst hl
      rw [hd] at h
      simp at h
  · rw [toDigits_eq_digits m hm, toDigits_eq_digits n hn] at h
    have h1 := List.reverse_injective h
    have h2 := map_digitChar_inj _ _
      (fun x hx => Nat.digits_lt_base (by norm_num) hx)
      (fun x hx => Nat.digits_lt_base (by norm_num) hx) h1
    exact Nat.digits_inj_iff.mp h2

theorem repr_inj (m n : Nat) (h : Nat.repr m = Nat.repr n) : m = n := by
  apply toDigits_inj
  have := congrArg String.data h
  simpa [Nat.repr, List.asString] using this

theorem mkRoomId_inj (m n : Nat) (h : mkRoomId m = mkRoomId n) : m = n := by
  apply repr_inj
  have hd := congrArg String.data h
  simp only [mkRoomId, String.data_append] at hd
  have := List.append_cancel_left hd
  exact String.ext this

/-! ## Further association-list lemmas -/

theorem alGet?_append_left [DecidableEq κ] {m1 m2 : List (κ × β)} {k : κ} {v : β}
    (h : alGet? m1 k = some v) : alGet? (m1 ++ m2) k = some v := by
  induction m1 with
  | nil => simp at h
  | cons p rest ih =>
    by_cases hp : p.1 = k
    · simpa [alGet?_cons, hp] using h
    · simp only [alGet?_cons, hp, if_false] at h
      simpa [alGet?_cons, hp] using ih h

theorem alGet?_append_right [DecidableEq κ] {m1 m2 : List (κ × β)} {k : κ}
    (h : alHas m1 k = false) : alGet? (m1 ++ m2) k = alGet? m2 k := by
  induction m1 with
  | nil => simp
  | cons p rest ih =>
    simp only [alHas, alGet?_cons] at h
    by_cases hp : p.1 = k
    · simp [hp] at h
    · simp only [List.cons_append, alGet?_cons, hp, if_false]
      exact ih (by simpa [alHas, hp] using h)

theorem alSet_append_left [DecidableEq κ] {m1 : List (κ × β)} (m2 : List (κ × β))
    {k : κ} (v : β) (h : alHas m1 k = true) :
    alSet (m1 ++ m2) k v = alSet m1 k v ++ m2 := by
  induction m1 with
  | nil => simp [alHas] at h
  | cons p rest ih =>
    by_cases hp : p.1 = k
    · simp [alSet, hp]
    · simp only [alHas, alGet?_cons, hp, if_false] at h
      simp [alSet, hp, ih (by simpa [alHas] using h)]

theorem alSet_append_right [DecidableEq κ] {m1 : List (κ × β)} (m2 : List (κ × β))
    {k : κ} (v : β) (h : alHas m1 k = false) :
    alSet (m1 ++ m2) k v = m1 ++ alSet m2 k v := by
  induction m1 with
  | nil => simp
  | cons p rest ih =>
    simp only [alHas, alGet?_cons] at h
    by_cases hp : p.1 = k
    · simp [hp] at h
    · simp only [List.cons_append, alSet, hp, if_false, List.cons.injEq, true_and]
      exact ih (by simpa [alHas, hp] using h)

theorem alGet?_of_mem_nodup [DecidableEq κ] {m : List (κ × β)} {p : κ × β}
    (hd : (m.map Prod.fst).Nodup) (h : p ∈ m) : alGet? m p.1 = some p.2 := by
  induction m with
  | nil => simp at h
  | cons q rest ih =>
    simp only [List.map_cons, List.nodup_cons] at hd
    rcases List.mem_cons.mp h with h1 | h1
    · subst h1
      simp [alGet?_cons]
    · have hne : q.1 ≠ p.1 := by
        intro he
        exact hd.1 (he ▸ List.mem_map_of_mem Prod.fst h1)
      simp only [alGet?_cons, hne, if_false]
      exact ih hd.2 h1

/-- Setting a present key relates the old and new lists pointwise. -/
theorem alSet_forall₂ [DecidableEq κ] {S : (κ × β) → (κ × β) → Prop}
    {m : List (κ × β)} {k : κ} {v w : β}
    (hget : alGet? m k = some v) (hvw : S (k, v) (k, w)) (hrefl : ∀ p, S p p) :
    List.Forall₂ S m (alSet m k w) := by
  induction m with
  | nil => simp at hget
  | cons p rest ih =>
    by_cases hp : p.1 = k
    · rw [alGet?_cons, if_pos hp] at hget
      have hpkv : p = (k, v) := by
        rw [← hp]
        injection hget with h2
        rw [← h2]
      simp only [alSet, hp, if_true]
      exact List.Forall₂.cons (hpkv ▸ hvw) (List.forall₂_same.mpr fun x _ => hrefl x)
    · rw [alGet?_cons, if_neg hp] at hget
      simp only [alSet, hp, if_false]
      exact List.Forall₂.cons (hrefl p) (ih hget)

theorem forall₂_keys_eq {S : (κ × β) → (κ × β) → Prop}
    (hk : ∀ p q, S p q → q.1 = p.1) :
    ∀ {m m' : List (κ × β)}, List.Forall₂ S m m' →
      m'.map Prod.fst = m.map Prod.fst
  | _, _, List.Forall₂.nil => rfl
  | _, _, List.Forall₂.cons hpq hrest => by
    simp [hk _ _ hpq, forall₂_keys_eq hk hrest]

theorem forall₂_mem_right {S : α → α → Prop} :
    ∀ {m m' : List α}, List.Forall₂ S m m' →
      ∀ q ∈ m', ∃ p ∈ m, S p q
  | _, _, List.Forall₂.nil => by simp
  | _, _, List.Forall₂.cons hpq hrest => by
    intro q hq
    rcases List.mem_cons.mp hq with h1 | h1
    · exact ⟨_, List.mem_cons_self _ _, h1 ▸ hpq⟩
    · obtain ⟨p, hp, hs⟩ := forall₂_mem_right hrest q h1
      exact ⟨p, List.mem_cons_of_mem _ hp, hs⟩

theorem forall₂_alGet?_right [DecidableEq κ] {S : (κ × β) → (κ × β) → Prop}
    (hk : ∀ p q, S p q → q.1 = p.1) :
    ∀ {m m' : List (κ × β)}, List.Forall₂ S m m' →
      ∀ k v', alGet? m' k = some v' → ∃ v, alGet? m k = some v ∧ S (k, v) (k, v')
  | _, _, List.Forall₂.nil => by intro k v' hv; simp at hv
  | _, _, @List.Forall₂.cons _ _ _ p q m m' hpq hrest => by
    intro k v' hv
    have hq1 : q.1 = p.1 := hk _ _ hpq
    by_cases hpk : p.1 = k
    · have hqk : q.1 = k := by rw [hq1, hpk]
      rw [alGet?_cons, if_pos hqk] at hv
      refine ⟨p.2, by simp [alGet?_cons, hpk], ?_⟩
      have hp' : ((k, p.2) : κ × β) = p := by rw [← hpk]
      have hq' : ((k, v') : κ × β) = q := by
        rw [← hqk]
        injection hv with hv2
        rw [← hv2]
      rw [hp', hq']
      exact hpq
    · have hqk : q.1 ≠ k := by rw [hq1]; exact hpk
      rw [alGet?_cons, if_neg hqk] at hv
      obtain ⟨v, hv1, hv2⟩ := forall₂_alGet?_right hk hrest k v' hv
      exact ⟨v, by simp [alGet?_cons, hpk, hv1], hv2⟩

theorem forall₂_alGet?_left [DecidableEq κ] {S : (κ × β) → (κ × β) → Prop}
    (hk : ∀ p q, S p q → q.1 = p.1) :
    ∀ {m m' : List (κ × β)}, List.Forall₂ S m m' →
      ∀ k v, alGet? m k = some v → ∃ v', alGet? m' k = some v' ∧ S (k, v) (k, v')
  | _, _, List.Forall₂.nil => by intro k v hv; simp at hv
  | _, _, @List.Forall₂.cons _ _ _ p q m m' hpq hrest => by
    intro k v hv
    have hq1 : q.1 = p.1 := hk _ _ hpq
    by_cases hpk : p.1 = k
    · have hqk : q.1 = k := by rw [hq1, hpk]
      rw [alGet?_cons, if_pos hpk] at hv
      refine ⟨q.2, by simp [alGet?_cons, hqk], ?_⟩
      have hp' : ((k, v) : κ × β) = p := by
        rw [← hpk]
        injection hv with hv2
        rw [← hv2]
      have hq' : ((k, q.2) : κ × β) = q := by rw [← hqk]
      rw [hp', hq']
      exact hpq
    · have hqk : q.1 ≠ k := by rw [hq1]; exact hpk
      rw [alGet?_cons, if_neg hpk] at hv
      obtain ⟨v', hv1, hv2⟩ := forall₂_alGet?_left hk hrest k v hv
      exact ⟨v', by simp [alGet?_cons, hqk, hv1], hv2⟩

theorem pairwise_of_forall₂ {S R : α → α → Prop}
    (htrans : ∀ a b a' b', S a a' → S b b' → R a b → R a' b') :
    ∀ {l l' : List α}, List.Forall₂ S l l' → l.Pairwise R → l'.Pairwise R
  | _, _, List.Forall₂.nil, _ => List.Pairwise.nil
  | _, _, @List.Forall₂.cons _ _ _ p q m m' hpq hrest, hp => by
    rcases List.pairwise_cons.mp hp with ⟨hhead, htail⟩
    refine List.pairwise_cons.mpr ⟨?_, pairwise_of_forall₂ htrans hrest htail⟩
    intro b' hb'
    obtain ⟨b, hb, hsb⟩ := forall₂_mem_right hrest b' hb'
    exact htrans p b q b' hpq hsb (hhead b hb)

theorem forall₂_trans_comp {S : α → α → Prop}
    (htr : ∀ a b c, S a b → S b c → S a c) :
    ∀ {l1 l2 l3 : List α}, List.Forall₂ S l1 l2 → List.Forall₂ S l2 l3 →
      List.Forall₂ S l1 l3
  | _, _, _, List.Forall₂.nil, List.Forall₂.nil => List.Forall₂.nil
  | _, _, _, List.Forall₂.cons hab h12, List.Forall₂.cons hbc h23 =>
    List.Forall₂.cons (htr _ _ _ hab hbc) (forall₂_trans_comp htr h12 h23)

theorem alSet_length [DecidableEq κ] (m : List (κ × β)) (k : κ) (v : β)
    (h : alHas m k = true) : (alSet m k v).length = m.length := by
  induction m with
  | nil => simp [alHas] at h
  | cons p rest ih =>
    by_cases hp : p.1 = k
    · simp [alSet, hp]
    · simp only [alHas, alGet?_cons, hp, if_false] at h
      simp [alSet, hp, ih (by simpa [alHas] using h)]

/-! ## The generator well-formedness invariant -/

theorem opposite_opposite (d : Direction) :
    OPPOSITE_DIRECTION (OPPOSITE_DIRECTION d) = d := by
  cases d <;> rfl

/-- Invariant maintained by every state generate() builds:
room-map keys are the ids allocated by the counter and match the stored
id field, cells of placed rooms are occupied in the grid, grid
coordinates are pairwise distinct, and connections link back
bidirectionally. -/
structure WF (st : GenState) : Prop where
  keyLt : ∀ p ∈ st.rooms, ∃ i, i < st.roomIdCounter ∧ p.1 = mkRoomId i
  keyId : ∀ p ∈ st.rooms, p.2.id = p.1
  nodup : (st.rooms.map Prod.fst).Nodup
  occ : ∀ p ∈ st.rooms, isOccupied st p.2.gridX p.2.gridZ = true
  cells : st.rooms.Pairwise fun a b => ¬(a.2.gridX = b.2.gridX ∧ a.2.gridZ = b.2.gridZ)
  bidir : ∀ p ∈ st.rooms, ∀ dir n, alGet? p.2.connections dir = some (some n) →
    ∃ q, alGet? st.rooms n = some q ∧
      alGet? q.connections (OPPOSITE_DIRECTION dir) = some (some p.1)

theorem isOccupied_congr {st st' : GenState} (hg : st'.grid = st.grid) (x z : Int) :
    isOccupied st' x z = isOccupied st x z := by
  unfold isOccupied
  rw [hg]

/-- WF only depends on the grid, room map and id counter. -/
theorem WF_congr {st st' : GenState} (h : WF st)
    (hg : st'.grid = st.grid) (hr : st'.rooms = st.rooms)
    (hc : st'.roomIdCounter = st.roomIdCounter) : WF st' := by
  refine ⟨?_, ?_, ?_, ?_, ?_, ?_⟩
  · rw [hr, hc]; exact h.keyLt
  · rw [hr]; exact h.keyId
  · rw [hr]; exact h.nodup
  · rw [hr]
    intro p hp
    rw [isOccupied_congr hg]
    exact h.occ p hp
  · rw [hr]; exact h.cells
  · rw [hr]; exact h.bidir

theorem WF_empty_rooms {st : GenState} (h : st.rooms = []) : WF st := by
  refine ⟨?_, ?_, ?_, ?_, ?_, ?_⟩ <;> rw [h] <;> simp

/-- The id allocated next is not a key of the room map. -/
theorem WF_fresh {st : GenState} (h : WF st) :
    alHas st.rooms (mkRoomId st.roomIdCounter) = false := by
  by_contra hmem
  rw [Bool.not_eq_false, alHas, alGet?_isSome_iff_mem_keys] at hmem
  obtain ⟨p, hp, hk⟩ := List.mem_map.mp hmem
  obtain ⟨i, hi, hik⟩ := h.keyLt p hp
  rw [hik] at hk
  have := mkRoomId_inj i st.roomIdCounter hk
  omega

theorem alHas_iff_mem_keys [DecidableEq κ] (m : List (κ × β)) (k : κ) :
    alHas m k = true ↔ k ∈ m.map Prod.fst :=
  alGet?_isSome_iff_mem_keys m k

theorem alHas_false_not_mem [DecidableEq κ] {m : List (κ × β)} {k : κ}
    (h : alHas m k = false) : k ∉ m.map Prod.fst := by
  intro hmem
  rw [← alHas_iff_mem_keys] at hmem
  rw [h] at hmem
  cases hmem

/-! ## placeRoom lemmas -/

theorem placeRoom_occupied (st : GenState) (x z : Int) (ty : RoomType)
    (h : isOccupied st x z = true) : placeRoom st x z ty = (st, none) := by
  unfold placeRoom
  rw [if_pos h]

/-- The placement record built by placeRoom for a free cell, given the
current id counter. -/
def newPlacement (c : Nat) (x z : Int) (ty : RoomType) : RoomPlacement where
  id := mkRoomId c
  type := ty
  gridX := x
  gridZ := z
  worldX := (x : ℚ) * 3 * TILE_SIZE
  worldZ := (z : ℚ) * 3 * TILE_SIZE
  connections := []
  group := none

theorem placeRoom_free (st : GenState) (x z : Int) (ty : RoomType)
    (h : isOccupied st x z = false) :
    placeRoom st x z ty =
      ({ st with
          rooms := alSet st.rooms (mkRoomId st.roomIdCounter)
            (newPlacement st.roomIdCounter x z ty)
          roomIdCounter := st.roomIdCounter + 1
          grid := alSet st.grid (x, z) ⟨some (mkRoomId st.roomIdCounter), true⟩ },
        some (newPlacement st.roomIdCounter x z ty)) := by
  unfold placeRoom markOccupied newPlacement
  rw [if_neg (by simp [h])]

theorem placeRoom_none_state (st : GenState) (x z : Int) (ty : RoomType)
    (h : (placeRoom st x z ty).2 = none) : (placeRoom st x z ty).1 = st := by
  by_cases ho : isOccupied st x z = true
  · rw [placeRoom_occupied st x z ty ho]
  · rw [placeRoom_free st x z ty (by simpa using ho)] at h
    simp at h

theorem isOccupied_grid_set {st st' : GenState} {x z : Int} {cell : GridCell}
    (hg : st'.grid = alSet st.grid (x, z) cell) :
    ∀ a b, isOccupied st' a b =
      if (a, b) = (x, z) then cell.occupied else isOccupied st a b := by
  intro a b
  unfold isOccupied
  rw [hg]
  by_cases hab : ((a, b) : Int × Int) = (x, z)
  · rw [hab, if_pos rfl, alGet?_alSet_self]
  · rw [if_neg hab, alGet?_alSet_ne _ _ _ _ hab]

theorem placeRoom_WF (st : GenState) (x z : Int) (ty : RoomType) (h : WF st) :
    WF (placeRoom st x z ty).1 := by
  by_cases ho : isOccupied st x z = true
  · rw [placeRoom_occupied st x z ty ho]
    exact h
  · have ho' : isOccupied st x z = false := by simpa using ho
    rw [placeRoom_free st x z ty ho']
    set c := st.roomIdCounter with hc
    set R := newPlacement c x z ty with hR
    have hfresh := WF_fresh h
    set st' : GenState := { st with
        rooms := alSet st.rooms (mkRoomId c) R
        roomIdCounter := c + 1
        grid := alSet st.grid (x, z) ⟨some (mkRoomId c), true⟩ } with hst'
    have hrooms : st'.rooms = st.rooms ++ [(mkRoomId c, R)] := by
      rw [hst']
      exact alSet_of_not_has _ _ _ hfresh
    have hgrid : st'.grid = alSet st.grid (x, z) ⟨some (mkRoomId c), true⟩ := rfl
    have hcount : st'.roomIdCounter = c + 1 := rfl
    have hocc := isOccupied_grid_set hgrid
    show WF st'
    refine ⟨?_, ?_, ?_, ?_, ?_, ?_⟩
    · rw [hrooms, hcount]
      intro p hp
      rcases List.mem_append.mp hp with h1 | h1
      · obtain ⟨i, hi, hk⟩ := h.keyLt p h1
        exact ⟨i, by omega, hk⟩
      · rw [List.mem_singleton] at h1
        exact ⟨c, by omega, by rw [h1]⟩
    · rw [hrooms]
      intro p hp
      rcases List.mem_append.mp hp with h1 | h1
      · exact h.keyId p h1
      · rw [List.mem_singleton] at h1
        rw [h1]
        rfl
    · rw [hrooms, List.map_append, List.nodup_append]
      refine ⟨h.nodup, by simp, ?_⟩
      intro a ha
      simp only [List.map_cons, List.map_nil, List.mem_singleton]
      intro hcon
      exact alHas_false_not_mem hfresh (hcon ▸ ha)
    · rw [hrooms]
      intro p hp
      rw [hocc]
      rcases List.mem_append.mp hp with h1 | h1
      · by_cases hcell : ((p.2.gridX, p.2.gridZ) : Int × Int) = (x, z)
        · rw [if_pos hcell]
        · rw [if_neg hcell]
          exact h.occ p h1
      · rw [List.mem_singleton] at h1
        rw [h1]
        simp [hR, newPlacement]
    · rw [hrooms, List.pairwise_append]
      refine ⟨h.cells, List.pairwise_singleton _ _, ?_⟩
      intro a ha b hb
      rw [List.mem_singleton] at hb
      rw [hb]
      simp only [hR, newPlacement]
      intro hcon
      have hoc := h.occ a ha
      rw [hcon.1, hcon.2] at hoc
      rw [hoc] at ho'
      exact Bool.noConfusion ho'
    · rw [hrooms]
      intro p hp dir n hconn
      rcases List.mem_append.mp hp with h1 | h1
      · obtain ⟨q, hq, hback⟩ := h.bidir p h1 dir n hconn
        exact ⟨q, alGet?_append_left hq, hback⟩
      · rw [List.mem_singleton] at h1
        rw [h1] at hconn
        simp [hR, newPlacement] at hconn

/-! ## expandFrom characterization -/

theorem mem_available {st : GenState} {room : RoomPlacement} {dir : Direction}
    (h : dir ∈ getAvailableDirections st room) :
    alHas room.connections dir = false ∧
    isOccupied st (room.gridX + (DIRECTION_OFFSET dir).1)
      (room.gridZ + (DIRECTION_OFFSET dir).2) = false := by
  unfold getAvailableDirections at h
  rw [List.mem_filter] at h
  have h2 := h.2
  rw [Bool.and_eq_true, Bool.not_eq_true', Bool.not_eq_true'] at h2
  exact h2

/-- The state produced by a successful expandFrom step, in closed form:
room type ty and final rng state rng' stand for the results of the
type-policy rolls. -/
def expandResult (st : GenState) (roomId : String) (room : RoomPlacement)
    (dir : Direction) (ty : RoomType) (rng' : SeededRandom) : GenState :=
  let c := st.roomIdCounter
  let newX := room.gridX + (DIRECTION_OFFSET dir).1
  let newZ := room.gridZ + (DIRECTION_OFFSET dir).2
  let raw := newPlacement c newX newZ ty
  let room1 := { room with connections := alSet room.connections dir (some (mkRoomId c)) }
  let newRoom1 := { raw with
    connections := alSet raw.connections (OPPOSITE_DIRECTION dir) (some room.id) }
  let newRoom2 := { newRoom1 with group := some (createRoomGroup newRoom1 none) }
  { st with
    rng := rng'
    grid := alSet st.grid (newX, newZ) ⟨some (mkRoomId c), true⟩
    roomIdCounter := c + 1
    rooms := alSet (alSet (alSet st.rooms (mkRoomId c) raw) roomId room1)
      (mkRoomId c) newRoom2 }

theorem expandFrom_cases (st : GenState) (roomId : String) :
    (expandFrom st roomId).1.config = st.config ∧
    (expandFrom st roomId).1.treasureRoomCount = st.treasureRoomCount ∧
    (expandFrom st roomId).1.shrineRoomCount = st.shrineRoomCount ∧
    (((expandFrom st roomId).2 = none ∧
      (expandFrom st roomId).1.rooms = st.rooms ∧
      (expandFrom st roomId).1.grid = st.grid ∧
      (expandFrom st roomId).1.roomIdCounter = st.roomIdCounter) ∨
     (∃ room dir ty rng',
        alGet? st.rooms roomId = some room ∧
        dir ∈ getAvailableDirections st room ∧
        (expandFrom st roomId).2 = some (mkRoomId st.roomIdCounter) ∧
        (expandFrom st roomId).1 = expandResult st roomId room dir ty rng')) := by
  unfold expandFrom
  split
  · exact ⟨rfl, rfl, rfl, Or.inl ⟨rfl, rfl, rfl, rfl⟩⟩
  · rename_i room hm
    dsimp only
    split
    · exact ⟨rfl, rfl, rfl, Or.inl ⟨rfl, rfl, rfl, rfl⟩⟩
    · rename_i hav
      have hdirmem : (st.rng.pick (getAvailableDirections st room)).2 ∈
          getAvailableDirections st room :=
        pick_snd_mem _ _ hav
      obtain ⟨hconnfree, hcellfree⟩ := mem_available hdirmem
      set dir := (st.rng.pick (getAvailableDirections st room)).2 with hdir
      set p2 :=
        (if st.rooms.length < 3 then
            (((st.rng.pick (getAvailableDirections st room)).1.chance (1 / 2)).1,
              if ((st.rng.pick (getAvailableDirections st room)).1.chance (1 / 2)).2 = true
              then RoomType.corridor_ns else RoomType.basic)
          else
            if ((st.rng.pick (getAvailableDirections st room)).1.chance
                st.config.branchingFactor).2 = true then
              (((st.rng.pick (getAvailableDirections st room)).1.chance
                st.config.branchingFactor).1, RoomType.junction)
            else
              ((st.rng.pick (getAvailableDirections st room)).1.chance
                st.config.branchingFactor).1.pick
                [RoomType.basic, RoomType.corridor_ns, RoomType.corridor_ew]) with hp2
      rw [placeRoom_free { st with rng := p2.1 }
        (room.gridX + (DIRECTION_OFFSET dir).1) (room.gridZ + (DIRECTION_OFFSET dir).2)
        p2.2 hcellfree]
      split
      · rename_i hprnone
        exact absurd hprnone (by simp)
      · rename_i newRoom hprsome
        simp only [Option.some.injEq] at hprsome
        subst hprsome
        refine ⟨rfl, rfl, rfl, Or.inr ?_⟩
        exact ⟨room, dir, p2.2, p2.1, hm, hdirmem, rfl, rfl⟩

theorem alHas_false_get_none [DecidableEq κ] {m : List (κ × β)} {k : κ}
    (h : alHas m k = false) : alGet? m k = none := by
  cases hg : alGet? m k with
  | none => rfl
  | some v =>
    rw [alHas, hg] at h
    cases h

theorem not_mem_keys_alHas_false [DecidableEq κ] {m : List (κ × β)} {k : κ}
    (h : k ∉ m.map Prod.fst) : alHas m k = false := by
  cases hh : alHas m k with
  | false => rfl
  | true => exact absurd ((alHas_iff_mem_keys m k).mp hh) h

theorem expandResult_WF (st : GenState) (roomId : String) (room : RoomPlacement)
    (dir : Direction) (ty : RoomType) (rng' : SeededRandom) (h : WF st)
    (hget : alGet? st.rooms roomId = some room)
    (hdirm : dir ∈ getAvailableDirections st room) :
    WF (expandResult st roomId room dir ty rng') := by
  obtain ⟨hconnfree, hcellfree⟩ := mem_available hdirm
  set c := st.roomIdCounter with hc
  set nid := mkRoomId c with hnid
  set newX := room.gridX + (DIRECTION_OFFSET dir).1 with hnX
  set newZ := room.gridZ + (DIRECTION_OFFSET dir).2 with hnZ
  set raw := newPlacement c newX newZ ty with hraw
  set room1 : RoomPlacement :=
    { room with connections := alSet room.connections dir (some nid) } with hroom1
  set newRoom1 : RoomPlacement :=
    ({ raw with
        connections := alSet raw.connections (OPPOSITE_DIRECTION dir) (some room.id) } :
      RoomPlacement) with hnew1
  set newRoom2 : RoomPlacement :=
    { newRoom1 with group := some (createRoomGroup newRoom1 none) } with hnew2
  have hfresh : alHas st.rooms nid = false := WF_fresh h
  have hroomhas : alHas st.rooms roomId = true := by
    rw [alHas, hget]
    rfl
  have hmemRoom : (roomId, room) ∈ st.rooms := alGet?_eq_some_mem hget
  have hid : room.id = roomId := h.keyId _ hmemRoom
  have hRne : roomId ≠ nid := by
    intro he
    rw [he] at hroomhas
    rw [hroomhas] at hfresh
    cases hfresh
  have hnotconn : alGet? room.connections dir = none := alHas_false_get_none hconnfree
  have hrooms0 : (expandResult st roomId room dir ty rng').rooms =
      alSet (alSet (alSet st.rooms nid raw) roomId room1) nid newRoom2 := rfl
  have hgrid0 : (expandResult st roomId room dir ty rng').grid =
      alSet st.grid (newX, newZ) ⟨some nid, true⟩ := rfl
  have hcount0 : (expandResult st roomId room dir ty rng').roomIdCounter = c + 1 := rfl
  set B := alSet st.rooms roomId room1 with hB
  have hrooms : (expandResult st roomId room dir ty rng').rooms =
      B ++ [(nid, newRoom2)] := by
    rw [hrooms0, alSet_of_not_has _ _ _ hfresh, alSet_append_left _ _ hroomhas]
    have hkeysB : B.map Prod.fst = st.rooms.map Prod.fst := keys_alSet_of_has _ _ _ hroomhas
    have hfreshB : alHas B nid = false :=
      not_mem_keys_alHas_false (by rw [hkeysB]; exact alHas_false_not_mem hfresh)
    rw [alSet_append_right _ _ hfreshB]
    simp [alSet]
  have hkeysB : B.map Prod.fst = st.rooms.map Prod.fst := keys_alSet_of_has _ _ _ hroomhas
  have hfreshB : alHas B nid = false :=
    not_mem_keys_alHas_false (by rw [hkeysB]; exact alHas_false_not_mem hfresh)
  have hBmap : B = st.rooms.map fun p => if p.1 = roomId then (roomId, room1) else p :=
    alSet_eq_map_of_nodup _ _ _ h.nodup hroomhas
  have getB : ∀ k, alGet? B k = if k = roomId then some room1 else alGet? st.rooms k := by
    intro k
    by_cases hk : k = roomId
    · subst hk
      rw [if_pos rfl, hB, alGet?_alSet_self]
    · rw [if_neg hk, hB, alGet?_alSet_ne _ _ _ _ hk]
  have getFull : ∀ k, alGet? ((expandResult st roomId room dir ty rng').rooms) k =
      if k = roomId then some room1
      else if k = nid then some newRoom2
      else alGet? st.rooms k := by
    intro k
    rw [hrooms]
    by_cases hk1 : k = roomId
    · subst hk1
      rw [if_pos rfl]
      exact alGet?_append_left (by rw [getB, if_pos rfl])
    · rw [if_neg hk1]
      by_cases hk2 : k = nid
      · subst hk2
        rw [if_pos rfl, alGet?_append_right hfreshB]
        simp [alGet?_cons]
      · rw [if_neg hk2]
        cases hA : alGet? st.rooms k with
        | some v =>
          exact alGet?_append_left (by rw [getB, if_neg hk1]; exact hA)
        | none =>
          have hBk : alHas B k = false := by
            rw [alHas, getB, if_neg hk1, hA]
            rfl
          rw [alGet?_append_right hBk]
          simp [alGet?_cons, Ne.symm hk2]
  have hmemRoomsFull : ∀ p, p ∈ (expandResult st roomId room dir ty rng').rooms →
      (∃ a ∈ st.rooms, p = if a.1 = roomId then (roomId, room1) else a) ∨
      p = (nid, newRoom2) := by
    intro p hp
    rw [hrooms, hBmap] at hp
    rcases List.mem_append.mp hp with h1 | h1
    · obtain ⟨a, ha, hpa⟩ := List.mem_map.mp h1
      exact Or.inl ⟨a, ha, hpa.symm⟩
    · rw [List.mem_singleton] at h1
      exact Or.inr h1
  have updval : ∀ a ∈ st.rooms, a.1 = roomId → a.2 = room := by
    intro a ha hak
    have := alGet?_of_mem_nodup h.nodup ha
    rw [hak, hget] at this
    injection this with h2
    exact h2.symm
  have hoccN := isOccupied_grid_set hgrid0
  have hnewid : newRoom2.id = nid := rfl
  have hnewcoords : newRoom2.gridX = newX ∧ newRoom2.gridZ = newZ := ⟨rfl, rfl⟩
  refine ⟨?_, ?_, ?_, ?_, ?_, ?_⟩
  · intro p hp
    rw [hcount0]
    rcases hmemRoomsFull p hp with ⟨a, ha, hpa⟩ | hpa
    · obtain ⟨i, hi, hk⟩ := h.keyLt a ha
      refine ⟨i, by omega, ?_⟩
      rw [hpa]
      by_cases hak : a.1 = roomId
      · rw [if_pos hak]
        rw [← hak, hk]
      · rw [if_neg hak]
        exact hk
    · exact ⟨c, by omega, by rw [hpa]⟩
  · intro p hp
    rcases hmemRoomsFull p hp with ⟨a, ha, hpa⟩ | hpa
    · by_cases hak : a.1 = roomId
      · rw [hpa, if_pos hak]
        show room1.id = roomId
        rw [hroom1]
        exact hid
      · rw [hpa, if_neg hak]
        exact h.keyId a ha
    · rw [hpa]
      exact hnewid
  · rw [hrooms, List.map_append, List.nodup_append, hkeysB]
    refine ⟨h.nodup, by simp, ?_⟩
    intro a ha
    simp only [List.map_cons, List.map_nil, List.mem_singleton]
    intro hcon
    exact alHas_false_not_mem hfresh (hcon ▸ ha)
  · intro p hp
    rw [hoccN]
    rcases hmemRoomsFull p hp with ⟨a, ha, hpa⟩ | hpa
    · have hcoords : p.2.gridX = a.2.gridX ∧ p.2.gridZ = a.2.gridZ := by
        by_cases hak : a.1 = roomId
        · rw [hpa, if_pos hak]
          have := updval a ha hak
          rw [hroom1]
          rw [this]
          exact ⟨rfl, rfl⟩
        · rw [hpa, if_neg hak]
          exact ⟨rfl, rfl⟩
      rw [hcoords.1, hcoords.2]
      by_cases hcell : ((a.2.gridX, a.2.gridZ) : Int × Int) = (newX, newZ)
      · rw [if_pos hcell]
      · rw [if_neg hcell]
        exact h.occ a ha
    · rw [hpa]
      dsimp only
      rw [hnewcoords.1, hnewcoords.2, if_pos rfl]
  · rw [hrooms, List.pairwise_append]
    refine ⟨?_, List.pairwise_singleton _ _, ?_⟩
    · rw [hBmap, List.pairwise_map]
      refine List.Pairwise.imp_of_mem ?_ h.cells
      intro a b ha hb hab
      have hca : (if a.1 = roomId then ((roomId, room1) : String × RoomPlacement) else a).2.gridX = a.2.gridX ∧
          (if a.1 = roomId then ((roomId, room1) : String × RoomPlacement) else a).2.gridZ = a.2.gridZ := by
        by_cases hak : a.1 = roomId
        · rw [if_pos hak, updval a ha hak, hroom1]
          exact ⟨rfl, rfl⟩
        · rw [if_neg hak]
          exact ⟨rfl, rfl⟩
      have hcb : (if b.1 = roomId then ((roomId, room1) : String × RoomPlacement) else b).2.gridX = b.2.gridX ∧
          (if b.1 = roomId then ((roomId, room1) : String × RoomPlacement) else b).2.gridZ = b.2.gridZ := by
        by_cases hbk : b.1 = roomId
        · rw [if_pos hbk, updval b hb hbk, hroom1]
          exact ⟨rfl, rfl⟩
        · rw [if_neg hbk]
          exact ⟨rfl, rfl⟩
      rw [hca.1, hca.2, hcb.1, hcb.2]
      exact hab
    · intro a ha b hb
      rw [List.mem_singleton] at hb
      rw [hb]
      rw [hBmap] at ha
      obtain ⟨a0, ha0, hpa⟩ := List.mem_map.mp ha
      have hcoords : a.2.gridX = a0.2.gridX ∧ a.2.gridZ = a0.2.gridZ := by
        by_cases hak : a0.1 = roomId
        · rw [← hpa, if_pos hak, updval a0 ha0 hak, hroom1]
          exact ⟨rfl, rfl⟩
        · rw [← hpa, if_neg hak]
          exact ⟨rfl, rfl⟩
      intro hcon
      have hoc := h.occ a0 ha0
      rw [← hcoords.1, ← hcoords.2] at hoc
      rw [hcon.1, hcon.2] at hoc
      show False
      rw [hnewcoords.1, hnewcoords.2] at hoc
      rw [hoc] at hcellfree
      exact Bool.noConfusion hcellfree
  · intro p hp dirp np hconnp
    rcases hmemRoomsFull p hp with ⟨a, ha, hpa⟩ | hpa
    · by_cases hak : a.1 = roomId
      · -- p is the updated source room (roomId, room1)
        have hpval : p = (roomId, room1) := by rw [hpa, if_pos hak]
        rw [hpval] at hconnp ⊢
        have hconnp1 : alGet? (alSet room.connections dir (some nid)) dirp =
            some (some np) := hconnp
        by_cases hdd : dirp = dir
        · subst hdd
          rw [alGet?_alSet_self] at hconnp1
          injection hconnp1 with h1
          injection h1 with h2
          refine ⟨newRoom2, ?_, ?_⟩
          · rw [getFull, ← h2, if_neg (Ne.symm hRne), if_pos rfl]
          · show alGet? (alSet raw.connections (OPPOSITE_DIRECTION dirp) (some room.id))
              (OPPOSITE_DIRECTION dirp) = some (some roomId)
            rw [alGet?_alSet_self, hid]
        · rw [alGet?_alSet_ne _ _ _ _ hdd] at hconnp1
          obtain ⟨q0, hq0, hback⟩ := h.bidir (roomId, room) hmemRoom dirp np hconnp1
          by_cases hnp1 : np = roomId
          · rw [hnp1, hget] at hq0
            injection hq0 with hq0e
            rw [← hq0e] at hback
            have hod : OPPOSITE_DIRECTION dirp ≠ dir := by
              intro he
              rw [he, hnotconn] at hback
              cases hback
            refine ⟨room1, by rw [getFull, if_pos hnp1], ?_⟩
            show alGet? (alSet room.connections dir (some nid)) (OPPOSITE_DIRECTION dirp) =
              some (some roomId)
            rw [alGet?_alSet_ne _ _ _ _ hod]
            exact hback
          · have hnp2 : np ≠ nid := by
              intro he
              rw [he, alHas_false_get_none hfresh] at hq0
              cases hq0
            refine ⟨q0, ?_, hback⟩
            rw [getFull, if_neg hnp1, if_neg hnp2]
            exact hq0
      · -- p is an untouched old room
        have hpval : p = a := by rw [hpa, if_neg hak]
        rw [hpval] at hconnp ⊢
        obtain ⟨q0, hq0, hback⟩ := h.bidir a ha dirp np hconnp
        by_cases hnp1 : np = roomId
        · rw [hnp1, hget] at hq0
          injection hq0 with hq0e
          rw [← hq0e] at hback
          have hod : OPPOSITE_DIRECTION dirp ≠ dir := by
            intro he
            rw [he, hnotconn] at hback
            cases hback
          refine ⟨room1, by rw [getFull, if_pos hnp1], ?_⟩
          show alGet? (alSet room.connections dir (some nid)) (OPPOSITE_DIRECTION dirp) =
            some (some a.1)
          rw [alGet?_alSet_ne _ _ _ _ hod]
          exact hback
        · have hnp2 : np ≠ nid := by
            intro he
            rw [he, alHas_false_get_none hfresh] at hq0
            cases hq0
          refine ⟨q0, ?_, hback⟩
          rw [getFull, if_neg hnp1, if_neg hnp2]
          exact hq0
    · -- p is the newly placed room
      rw [hpa] at hconnp ⊢
      have hconnp1 : alGet? (alSet raw.connections (OPPOSITE_DIRECTION dir) (some room.id))
          dirp = some (some np) := hconnp
      by_cases hdd : dirp = OPPOSITE_DIRECTION dir
      · subst hdd
        rw [alGet?_alSet_self] at hconnp1
        injection hconnp1 with h1
        injection h1 with h2
        have hnproom : np = roomId := by rw [← h2, hid]
        refine ⟨room1, ?_, ?_⟩
        · rw [getFull, hnproom, if_pos rfl]
        · show alGet? (alSet room.connections dir (some nid))
            (OPPOSITE_DIRECTION (OPPOSITE_DIRECTION dir)) = some (some nid)
          rw [opposite_opposite, alGet?_alSet_self]
      · rw [alGet?_alSet_ne _ _ _ _ hdd, hraw] at hconnp1
        simp [newPlacement] at hconnp1

theorem expandFrom_WF (st : GenState) (roomId : String) (h : WF st) :
    WF (expandFrom st roomId).1 := by
  obtain ⟨_, _, _, hcase⟩ := expandFrom_cases st roomId
  rcases hcase with ⟨_, hr, hg, hcnt⟩ | ⟨room, dir, ty, rng', hget, hdirm, _, hres⟩
  · exact WF_congr h hg hr hcnt
  · rw [hres]
    exact expandResult_WF st roomId room dir ty rng' h hget hdirm

theorem expandFrom_none_frame (st : GenState) (roomId : String)
    (h : (expandFrom st roomId).2 = none) :
    (expandFrom st roomId).1.rooms = st.rooms ∧
    (expandFrom st roomId).1.grid = st.grid ∧
    (expandFrom st roomId).1.roomIdCounter = st.roomIdCounter := by
  obtain ⟨_, _, _, hcase⟩ := expandFrom_cases st roomId
  rcases hcase with ⟨_, hr, hg, hcnt⟩ | ⟨_, _, _, _, _, _, hs, _⟩
  · exact ⟨hr, hg, hcnt⟩
  · rw [h] at hs
    cases hs

theorem expandResult_rooms_length (st : GenState) (roomId : String)
    (room : RoomPlacement) (dir : Direction) (ty : RoomType) (rng' : SeededRandom)
    (h : WF st) (hget : alGet? st.rooms roomId = some room) :
    (expandResult st roomId room dir ty rng').rooms.length = st.rooms.length + 1 := by
  have hfresh := WF_fresh h
  have hroomhas : alHas st.rooms roomId = true := by
    rw [alHas, hget]
    rfl
  set c := st.roomIdCounter with hc
  set nid := mkRoomId c with hnid
  have hrooms0 : (expandResult st roomId room dir ty rng').rooms =
      alSet (alSet (alSet st.rooms nid
        (newPlacement c (room.gridX + (DIRECTION_OFFSET dir).1)
          (room.gridZ + (DIRECTION_OFFSET dir).2) ty)) roomId
        { room with connections := alSet room.connections dir (some nid) }) nid
        (let raw := newPlacement c (room.gridX + (DIRECTION_OFFSET dir).1)
          (room.gridZ + (DIRECTION_OFFSET dir).2) ty
         let newRoom1 := { raw with
           connections := alSet raw.connections (OPPOSITE_DIRECTION dir) (some room.id) }
         { newRoom1 with group := some (createRoomGroup newRoom1 none) }) := rfl
  rw [hrooms0]
  set raw := newPlacement c (room.gridX + (DIRECTION_OFFSET dir).1)
    (room.gridZ + (DIRECTION_OFFSET dir).2) ty
  set l1 := alSet st.rooms nid raw with hl1
  have hlen1 : l1.length = st.rooms.length + 1 := by
    rw [hl1, alSet_of_not_has _ _ _ hfresh]
    simp
  have hhas1 : alHas l1 roomId = true := by
    rw [alHas_iff_mem_keys, hl1, alSet_of_not_has _ _ _ hfresh, List.map_append]
    exact List.mem_append_left _ ((alHas_iff_mem_keys _ _).mp hroomhas)
  set l2 := alSet l1 roomId { room with connections := alSet room.connections dir (some nid) }
    with hl2
  have hlen2 : l2.length = l1.length := by
    rw [hl2]
    exact alSet_length _ _ _ hhas1
  have hhas2 : alHas l2 nid = true := by
    rw [alHas_iff_mem_keys, hl2, keys_alSet_of_has _ _ _ hhas1, hl1,
      alSet_of_not_has _ _ _ hfresh, List.map_append]
    exact List.mem_append_right _ (by simp)
  rw [alSet_length _ _ _ hhas2, hlen2, hlen1]

theorem expandFrom_some_rooms_length (st : GenState) (roomId : String) (h : WF st)
    {nid : String} (hsome : (expandFrom st roomId).2 = some nid) :
    (expandFrom st roomId).1.rooms.length = st.rooms.length + 1 := by
  obtain ⟨_, _, _, hcase⟩ := expandFrom_cases st roomId
  rcases hcase with ⟨hn, _, _, _⟩ | ⟨room, dir, ty, rng', hget, hdirm, _, hres⟩
  · rw [hsome] at hn
    cases hn
  · rw [hres]
    exact expandResult_rooms_length st roomId room dir ty rng' h hget

theorem expandFrom_config (st : GenState) (roomId : String) :
    (expandFrom st roomId).1.config = st.config ∧
    (expandFrom st roomId).1.treasureRoomCount = st.treasureRoomCount ∧
    (expandFrom st roomId).1.shrineRoomCount = st.shrineRoomCount := by
  obtain ⟨h1, h2, h3, _⟩ := expandFrom_cases st roomId
  exact ⟨h1, h2, h3⟩

/-! ## Frame relations between room maps -/

/-- The fields of a placement that a value update leaves untouched. -/
def FrameRel (p q : String × RoomPlacement) : Prop :=
  q.1 = p.1 ∧ q.2.id = p.2.id ∧ q.2.gridX = p.2.gridX ∧ q.2.gridZ = p.2.gridZ ∧
  q.2.connections = p.2.connections

theorem FrameRel_refl (p : String × RoomPlacement) : FrameRel p p :=
  ⟨rfl, rfl, rfl, rfl, rfl⟩

/-- WF transfers across a pointwise update that keeps keys, ids,
coordinates and connections. -/
theorem WF_of_frame {st st' : GenState} (h : WF st)
    (hg : st'.grid = st.grid) (hc : st'.roomIdCounter = st.roomIdCounter)
    (hf : List.Forall₂ FrameRel st.rooms st'.rooms) : WF st' := by
  have hk : ∀ p q, FrameRel p q → q.1 = p.1 := fun p q hs => hs.1
  refine ⟨?_, ?_, ?_, ?_, ?_, ?_⟩
  · intro q hq
    obtain ⟨p, hp, hs⟩ := forall₂_mem_right hf q hq
    obtain ⟨i, hi, hik⟩ := h.keyLt p hp
    exact ⟨i, by omega, by rw [hs.1, hik]⟩
  · intro q hq
    obtain ⟨p, hp, hs⟩ := forall₂_mem_right hf q hq
    rw [hs.2.1, hs.1]
    exact h.keyId p hp
  · rw [forall₂_keys_eq hk hf]
    exact h.nodup
  · intro q hq
    obtain ⟨p, hp, hs⟩ := forall₂_mem_right hf q hq
    rw [isOccupied_congr hg, hs.2.2.1, hs.2.2.2.1]
    exact h.occ p hp
  · refine pairwise_of_forall₂ ?_ hf h.cells
    intro a b a' b' hsa hsb hab
    rw [hsa.2.2.1, hsa.2.2.2.1, hsb.2.2.1, hsb.2.2.2.1]
    exact hab
  · intro q hq dir n hconn
    obtain ⟨p, hp, hs⟩ := forall₂_mem_right hf q hq
    rw [hs.2.2.2.2] at hconn
    obtain ⟨q0, hq0, hback⟩ := h.bidir p hp dir n hconn
    obtain ⟨q0s, hq0s, hss⟩ := forall₂_alGet?_left hk hf n q0 hq0
    refine ⟨q0s, hq0s, ?_⟩
    rw [hss.2.2.2.2, hback, hs.1]

/-! ## The growth loop -/

def loopMeasure (target : Int) (st : GenState) (frontier : List String) : Nat :=
  frontier.length + 2 * (target - (st.rooms.length : Int)).toNat

theorem generateLoop_spec (target : Int) : ∀ (fuel : Nat) (st : GenState)
    (frontier : List String), WF st →
    WF (generateLoop target fuel st frontier).1 ∧
    st.rooms.length ≤ (generateLoop target fuel st frontier).1.rooms.length ∧
    ((st.rooms.length : Int) ≤ target →
      (((generateLoop target fuel st frontier).1.rooms.length : Int) ≤ target)) ∧
    (generateLoop target fuel st frontier).1.config = st.config ∧
    (generateLoop target fuel st frontier).1.treasureRoomCount = st.treasureRoomCount ∧
    (generateLoop target fuel st frontier).1.shrineRoomCount = st.shrineRoomCount ∧
    (loopMeasure target st frontier ≤ fuel →
      ¬((((generateLoop target fuel st frontier).1.rooms.length : Int) < target) ∧
        (generateLoop target fuel st frontier).2 ≠ [])) := by
  intro fuel
  induction fuel with
  | zero =>
    intro st frontier h
    refine ⟨h, le_refl _, fun hle => hle, rfl, rfl, rfl, ?_⟩
    intro hm hcon
    unfold loopMeasure at hm
    have : frontier.length = 0 := by omega
    exact hcon.2 (List.length_eq_zero.mp this)
  | succ fuel ih =>
    intro st frontier h
    rw [generateLoop]
    split
    · rename_i hguard
      dsimp only
      have hfne : frontier ≠ [] := hguard.2
      have hcur : (st.rng.pick frontier).2 ∈ frontier := pick_snd_mem _ _ hfne
      have hflen : 1 ≤ frontier.length := List.length_pos.mpr hfne
      have hWF1 : WF { st with rng := (st.rng.pick frontier).1 } :=
        WF_congr h rfl rfl rfl
      split
      · rename_i heq
        have hWF2 := expandFrom_WF { st with rng := (st.rng.pick frontier).1 }
          (st.rng.pick frontier).2 hWF1
        obtain ⟨hr, _, _⟩ := expandFrom_none_frame _ _ heq
        obtain ⟨hcfg, htre, hshr⟩ := expandFrom_config
          { st with rng := (st.rng.pick frontier).1 } (st.rng.pick frontier).2
        obtain ⟨ih1, ih2, ih3, ih4, ih5, ih6, ih7⟩ := ih _ (frontier.erase (st.rng.pick frontier).2) hWF2
        refine ⟨ih1, ?_, ?_, ?_, ?_, ?_, ?_⟩
        · rw [hr] at ih2
          exact ih2
        · intro hle
          apply ih3
          rw [hr]
          exact hle
        · rw [ih4, hcfg]
        · rw [ih5, htre]
        · rw [ih6, hshr]
        · intro hm
          apply ih7
          unfold loopMeasure at hm ⊢
          rw [hr]
          have herase : (frontier.erase (st.rng.pick frontier).2).length =
              frontier.length - 1 := List.length_erase_of_mem hcur
          dsimp only at hm ⊢
          omega
      · rename_i nid heq
        have hWF2 := expandFrom_WF { st with rng := (st.rng.pick frontier).1 }
          (st.rng.pick frontier).2 hWF1
        have hlen := expandFrom_some_rooms_length _ _ hWF1 heq
        obtain ⟨hcfg, htre, hshr⟩ := expandFrom_config
          { st with rng := (st.rng.pick frontier).1 } (st.rng.pick frontier).2
        obtain ⟨ih1, ih2, ih3, ih4, ih5, ih6, ih7⟩ := ih _ (frontier ++ [nid]) hWF2
        have hsz : (st.rooms.length : Int) < target := hguard.1
        refine ⟨ih1, ?_, ?_, ?_, ?_, ?_, ?_⟩
        · rw [hlen] at ih2
          dsimp only at ih2 ⊢
          omega
        · intro _
          apply ih3
          rw [hlen]
          dsimp only
          push_cast
          omega
        · rw [ih4, hcfg]
        · rw [ih5, htre]
        · rw [ih6, hshr]
        · intro hm
          apply ih7
          unfold loopMeasure at hm ⊢
          rw [hlen]
          dsimp only at hm ⊢
          simp only [List.length_append, List.length_singleton]
          omega
    · rename_i hguard
      rw [not_and_or] at hguard
      refine ⟨h, le_refl _, fun hle => hle, rfl, rfl, rfl, ?_⟩
      intro _ hcon
      rcases hguard with hg1 | hg2
      · exact hg1 hcon.1
      · rw [Classical.not_not] at hg2
        exact hcon.2 hg2

/-! ## generatePlacement -/

def spawnRoom : RoomPlacement := newPlacement 0 0 0 RoomType.junction

def spawnRoom1 : RoomPlacement :=
  { spawnRoom with group := some (createRoomGroup spawnRoom none) }

/-- The state right after the seed junction is placed and built. -/
def spawnState (g : GenState) : GenState :=
  { g with
    rng := (g.rng.nextInt g.config.minRooms (g.config.maxRooms + 1)).1
    grid := [((0, 0), ⟨some (mkRoomId 0), true⟩)]
    rooms := [(mkRoomId 0, spawnRoom1)]
    roomIdCounter := 1
    treasureRoomCount := 0
    shrineRoomCount := 0 }

theorem generatePlacement_eq (g : GenState) :
    generatePlacement g =
      generateLoop (targetRoomCount g) (1 + 2 * (targetRoomCount g - 1).toNat)
        (spawnState g) [mkRoomId 0] := by
  with_unfolding_all rfl

theorem spawnState_WF (g : GenState) : WF (spawnState g) := by
  refine ⟨?_, ?_, ?_, ?_, ?_, ?_⟩
  · intro p hp
    rw [spawnState] at hp
    rw [List.mem_singleton] at hp
    exact ⟨0, Nat.zero_lt_one, by rw [hp]⟩
  · intro p hp
    rw [spawnState] at hp
    rw [List.mem_singleton] at hp
    rw [hp]
    rfl
  · simp [spawnState]
  · intro p hp
    rw [spawnState] at hp
    rw [List.mem_singleton] at hp
    rw [hp]
    rfl
  · simp [spawnState]
  · intro p hp dir n hconn
    rw [spawnState] at hp
    rw [List.mem_singleton] at hp
    rw [hp] at hconn
    simp [spawnRoom1, spawnRoom, newPlacement] at hconn

theorem spawnState_rooms_length (g : GenState) : (spawnState g).rooms.length = 1 := rfl

theorem generatePlacement_spec (g : GenState) :
    WF (generatePlacement g).1 ∧
    (generatePlacement g).1.config = g.config ∧
    (generatePlacement g).1.treasureRoomCount = 0 ∧
    (generatePlacement g).1.shrineRoomCount = 0 ∧
    1 ≤ (generatePlacement g).1.rooms.length ∧
    (1 ≤ targetRoomCount g →
      (((generatePlacement g).1.rooms.length : Int) ≤ targetRoomCount g ∧
       ¬((((generatePlacement g).1.rooms.length : Int) < targetRoomCount g) ∧
         (generatePlacement g).2 ≠ []))) := by
  rw [generatePlacement_eq]
  obtain ⟨h1, h2, h3, h4, h5, h6, h7⟩ :=
    generateLoop_spec (targetRoomCount g) (1 + 2 * (targetRoomCount g - 1).toNat)
      (spawnState g) [mkRoomId 0] (spawnState_WF g)
  rw [spawnState_rooms_length] at h2 h3
  refine ⟨h1, ?_, ?_, ?_, h2, ?_⟩
  · rw [h4]
    rfl
  · rw [h5]
    rfl
  · rw [h6]
    rfl
  · intro htar
    refine ⟨h3 (by exact_mod_cast htar), ?_⟩
    apply h7
    unfold loopMeasure
    rw [spawnState_rooms_length]
    simp only [List.length_singleton]
    omega

/-! ## The special-room pass -/

/-- What one reclassification may change: only type (to dead_end) and
group; keys, ids, coordinates and connections are untouched. -/
def SpecialFrame (p q : String × RoomPlacement) : Prop :=
  q.1 = p.1 ∧ q.2.id = p.2.id ∧ q.2.gridX = p.2.gridX ∧ q.2.gridZ = p.2.gridZ ∧
  q.2.worldX = p.2.worldX ∧ q.2.worldZ = p.2.worldZ ∧
  q.2.connections = p.2.connections ∧ (q.2 = p.2 ∨ q.2.type = RoomType.dead_end)

theorem SpecialFrame_refl (p : String × RoomPlacement) : SpecialFrame p p :=
  ⟨rfl, rfl, rfl, rfl, rfl, rfl, rfl, Or.inl rfl⟩

theorem SpecialFrame_trans (a b c : String × RoomPlacement)
    (h1 : SpecialFrame a b) (h2 : SpecialFrame b c) : SpecialFrame a c := by
  obtain ⟨k1, i1, x1, z1, wx1, wz1, c1, d1⟩ := h1
  obtain ⟨k2, i2, x2, z2, wx2, wz2, c2, d2⟩ := h2
  refine ⟨k2.trans k1, i2.trans i1, x2.trans x1, z2.trans z1,
    wx2.trans wx1, wz2.trans wz1, c2.trans c1, ?_⟩
  rcases d2 with d2 | d2
  · rw [d2]
    exact d1
  · exact Or.inr d2

theorem SpecialFrame_to_FrameRel (p q : String × RoomPlacement)
    (h : SpecialFrame p q) : FrameRel p q :=
  ⟨h.1, h.2.1, h.2.2.1, h.2.2.2.1, h.2.2.2.2.2.2.1⟩

theorem addSpecialRoomsGo_frame : ∀ (ids : List String) (st : GenState),
    List.Forall₂ SpecialFrame st.rooms (addSpecialRoomsGo st ids).rooms ∧
    (addSpecialRoomsGo st ids).grid = st.grid ∧
    (addSpecialRoomsGo st ids).roomIdCounter = st.roomIdCounter ∧
    (addSpecialRoomsGo st ids).config = st.config := by
  intro ids
  induction ids with
  | nil =>
    intro st
    exact ⟨List.forall₂_same.mpr fun p _ => SpecialFrame_refl p, rfl, rfl, rfl⟩
  | cons i rest ih =>
    intro st
    rw [addSpecialRoomsGo]
    dsimp only
    split
    · exact ih st
    · rename_i room hroomget
      split
      · rename_i hguard
        split
        · rename_i hc1
          obtain ⟨f1, f2, f3, f4⟩ := ih { st with
            rng := (st.rng.chance st.config.treasureRoomChance).1
            rooms := alSet st.rooms i
              { room with
                type := RoomType.dead_end
                group := some (createRoomGroup { room with type := RoomType.dead_end }
                  (some Variant.treasure)) }
            treasureRoomCount := st.treasureRoomCount + 1 }
          refine ⟨forall₂_trans_comp SpecialFrame_trans ?_ f1, by rw [f2], by rw [f3],
            by rw [f4]⟩
          exact alSet_forall₂ hroomget
            ⟨rfl, rfl, rfl, rfl, rfl, rfl, rfl, Or.inr rfl⟩ SpecialFrame_refl
        · split
          · rename_i hc2
            obtain ⟨f1, f2, f3, f4⟩ := ih { st with
              rng := ((st.rng.chance st.config.treasureRoomChance).1.chance
                st.config.shrineRoomChance).1
              rooms := alSet st.rooms i
                { room with
                  type := RoomType.dead_end
                  group := some (createRoomGroup { room with type := RoomType.dead_end }
                    (some Variant.shrine)) }
              shrineRoomCount := st.shrineRoomCount + 1 }
            refine ⟨forall₂_trans_comp SpecialFrame_trans ?_ f1, by rw [f2], by rw [f3],
              by rw [f4]⟩
            exact alSet_forall₂ hroomget
              ⟨rfl, rfl, rfl, rfl, rfl, rfl, rfl, Or.inr rfl⟩ SpecialFrame_refl
          · exact ih { st with
              rng := ((st.rng.chance st.config.treasureRoomChance).1.chance
                st.config.shrineRoomChance).1 }
      · exact ih st

theorem addSpecialRoomsGo_caps : ∀ (ids : List String) (st : GenState),
    st.treasureRoomCount ≤ 2 → st.shrineRoomCount ≤ 1 →
    (addSpecialRoomsGo st ids).treasureRoomCount ≤ 2 ∧
    (addSpecialRoomsGo st ids).shrineRoomCount ≤ 1 := by
  intro ids
  induction ids with
  | nil =>
    intro st h1 h2
    exact ⟨h1, h2⟩
  | cons i rest ih =>
    intro st h1 h2
    rw [addSpecialRoomsGo]
    dsimp only
    split
    · exact ih st h1 h2
    · rename_i room hroomget
      split
      · rename_i hguard
        split
        · rename_i hc1
          exact ih _ (by dsimp only; omega) h2
        · split
          · rename_i hc2
            exact ih _ h1 (by dsimp only; omega)
          · exact ih _ h1 h2
      · exact ih st h1 h2

theorem addSpecialRoomsGo_type_change : ∀ (ids : List String) (st : GenState)
    (id : String) (r r' : RoomPlacement),
    alGet? st.rooms id = some r →
    alGet? (addSpecialRoomsGo st ids).rooms id = some r' →
    r'.type ≠ r.type →
    liveConnCount r = 1 ∧ r.type ≠ RoomType.junction := by
  intro ids
  induction ids with
  | nil =>
    intro st id r r' hr hr' hne
    rw [addSpecialRoomsGo] at hr'
    rw [hr] at hr'
    injection hr' with he
    rw [← he] at hne
    exact absurd rfl hne
  | cons i rest ih =>
    intro st id r r' hr hr' hne
    rw [addSpecialRoomsGo] at hr'
    dsimp only at hr'
    split at hr'
    · exact ih st id r r' hr hr' hne
    · rename_i room hroomget
      split at hr'
      · rename_i hguard
        split at hr'
        · rename_i hc1
          by_cases hii : id = i
          · subst hii
            rw [hr] at hroomget
            injection hroomget with he
            rw [← he] at hguard
            exact hguard
          · refine ih _ id r r' ?_ hr' hne
            exact (alGet?_alSet_ne _ _ _ _ hii).trans hr
        · split at hr'
          · rename_i hc2
            by_cases hii : id = i
            · subst hii
              rw [hr] at hroomget
              injection hroomget with he
              rw [← he] at hguard
              exact hguard
            · refine ih _ id r r' ?_ hr' hne
              exact (alGet?_alSet_ne _ _ _ _ hii).trans hr
          · exact ih { st with
                rng := ((st.rng.chance st.config.treasureRoomChance).1.chance
                  st.config.shrineRoomChance).1 } id r r' hr hr' hne
      · exact ih st id r r' hr hr' hne

theorem addSpecialRooms_frame (st : GenState) :
    List.Forall₂ SpecialFrame st.rooms (addSpecialRooms st).rooms ∧
    (addSpecialRooms st).grid = st.grid ∧
    (addSpecialRooms st).roomIdCounter = st.roomIdCounter ∧
    (addSpecialRooms st).config = st.config :=
  addSpecialRoomsGo_frame (st.rooms.map Prod.fst) st

theorem addSpecialRooms_WF (st : GenState) (h : WF st) : WF (addSpecialRooms st) := by
  obtain ⟨f1, f2, f3, _⟩ := addSpecialRooms_frame st
  exact WF_of_frame h f2 f3 (List.Forall₂.imp (fun a b hs => SpecialFrame_to_FrameRel a b hs) f1)

theorem generate_WF (g : GenState) : WF (generate g) := by
  unfold generate
  exact addSpecialRooms_WF _ (generatePlacement_spec g).1

/-! ## Claim C2: no two rooms share a grid cell -/

/-- Claim C2: after any generate() run the placed rooms have pairwise
distinct (gridX, gridZ) cells; and placeRoom consults the occupancy map
first, returning null and leaving the state unchanged when the target
cell is occupied. -/
theorem generate_no_overlap :
    (∀ g : GenState, (generate g).rooms.Pairwise fun a b =>
      ¬(a.2.gridX = b.2.gridX ∧ a.2.gridZ = b.2.gridZ)) ∧
    (∀ (st : GenState) (x z : Int) (ty : RoomType),
      isOccupied st x z = true → placeRoom st x z ty = (st, none)) :=
  ⟨fun g => (generate_WF g).cells, fun st x z ty h => placeRoom_occupied st x z ty h⟩

def occupiedStateW : GenState :=
  { config := ⟨0, 0, 0, 0, 0, 0⟩, rng := ⟨0⟩,
    grid := [((0, 0), ⟨some "room_0", true⟩)], rooms := [], roomIdCounter := 0,
    treasureRoomCount := 0, shrineRoomCount := 0 }

/-- Witness for C2: a concrete occupied cell makes placeRoom place
nothing. -/
theorem generate_no_overlap_witness :
    isOccupied occupiedStateW 0 0 = true ∧
    placeRoom occupiedStateW 0 0 RoomType.junction = (occupiedStateW, none) :=
  ⟨rfl, generate_no_overlap.2 occupiedStateW 0 0 RoomType.junction rfl⟩

/-! ## Claim C3: bidirectional connections -/

/-- Every non-null connection of a placed room targets an existing room
whose opposite-direction connection points back. -/
def BidirectionalInv (st : GenState) : Prop :=
  ∀ p ∈ st.rooms, ∀ dir n, alGet? p.2.connections dir = some (some n) →
    ∃ q, alGet? st.rooms n = some q ∧
      alGet? q.connections (OPPOSITE_DIRECTION dir) = some (some p.2.id)

/-- Claim C3: after any generate() run, whenever a placed room's
connection map sends direction D to a neighbor id N, the room N exists
in the returned map and its connection at the opposite direction points
back to the first room's id. -/
theorem generate_bidirectional (g : GenState) : BidirectionalInv (generate g) := by
  intro p hp dir n hconn
  obtain ⟨q, hq, hback⟩ := (generate_WF g).bidir p hp dir n hconn
  refine ⟨q, hq, ?_⟩
  rw [(generate_WF g).keyId p hp]
  exact hback

/-! ## Claim C4: special-room caps and dead-end precondition -/

/-- Any room whose type differs between the pass entry state and the
final state was, at reclassification time, a true dead end: exactly one
live connection and a non-junction type.  (Connections and unprocessed
types never change during the pass, so the entry state records the state
at the moment of reclassification.) -/
def ReclassifiedWereDeadEnds (before after : GenState) : Prop :=
  ∀ id r r', alGet? before.rooms id = some r → alGet? after.rooms id = some r' →
    r'.type ≠ r.type → liveConnCount r = 1 ∧ r.type ≠ RoomType.junction

/-- Claim C4: across any generate() run at most 2 rooms are reclassified
as treasure dead-ends and at most 1 as a shrine dead-end (hard ceilings),
and every reclassified room had exactly one non-null connection and a
non-junction type when reclassified. -/
theorem generate_special_room_caps (g : GenState) :
    (generate g).treasureRoomCount ≤ 2 ∧ (generate g).shrineRoomCount ≤ 1 ∧
    ReclassifiedWereDeadEnds (generatePlacement g).1 (generate g) := by
  obtain ⟨_, _, ht0, hs0, _, _⟩ := generatePlacement_spec g
  have hcaps := addSpecialRoomsGo_caps ((generatePlacement g).1.rooms.map Prod.fst)
    (generatePlacement g).1 (by omega) (by omega)
  refine ⟨hcaps.1, hcaps.2, ?_⟩
  intro id r r' hr hr' hne
  exact addSpecialRoomsGo_type_change _ _ id r r' hr hr' hne

/-! ## Claim C6: room-count bounds -/

/-- Claim C6: whenever the drawn target is at least 1, generate() returns
at least one room (the seed junction) and at most target rooms, and
returns exactly target rooms unless the growth loop's frontier was
exhausted first (the frontier returned by the placement phase is empty). -/
theorem generate_room_count_bounds (g : GenState) (h : 1 ≤ targetRoomCount g) :
    1 ≤ (generate g).rooms.length ∧
    ((generate g).rooms.length : Int) ≤ targetRoomCount g ∧
    (((generate g).rooms.length : Int) = targetRoomCount g ∨
      (generatePlacement g).2 = []) := by
  obtain ⟨_, _, _, _, h5, h6⟩ := generatePlacement_spec g
  obtain ⟨hle, hexit⟩ := h6 h
  have hlen : (generate g).rooms.length = (generatePlacement g).1.rooms.length := by
    have hf := (addSpecialRooms_frame (generatePlacement g).1).1
    exact hf.length_eq.symm
  rw [hlen]
  refine ⟨h5, hle, ?_⟩
  rw [not_and_or] at hexit
  rcases hexit with h1 | h2
  · left
    omega
  · right
    rw [Classical.not_not] at h2
    exact h2

/-- Witness for C6 at a concrete seed and configuration. -/
theorem generate_room_count_bounds_witness :
    1 ≤ targetRoomCount (mkGenerator ⟨0, 2, 2, 1, 0, 0⟩) ∧
    (1 ≤ (generate (mkGenerator ⟨0, 2, 2, 1, 0, 0⟩)).rooms.length ∧
     ((generate (mkGenerator ⟨0, 2, 2, 1, 0, 0⟩)).rooms.length : Int) ≤
       targetRoomCount (mkGenerator ⟨0, 2, 2, 1, 0, 0⟩) ∧
     (((generate (mkGenerator ⟨0, 2, 2, 1, 0, 0⟩)).rooms.length : Int) =
       targetRoomCount (mkGenerator ⟨0, 2, 2, 1, 0, 0⟩) ∨
       (generatePlacement (mkGenerator ⟨0, 2, 2, 1, 0, 0⟩)).2 = [])) :=
  ⟨by decide, generate_room_count_bounds (mkGenerator ⟨0, 2, 2, 1, 0, 0⟩) (by decide)⟩

/-! ## Claim C10: frame property of the special-room pass -/

/-- Claim C10: addSpecialRooms neither adds nor removes rooms (the key
sequence is unchanged), and for every room it leaves id, gridX, gridZ,
worldX, worldZ and the whole connection map unchanged; a room is either
returned identical or reclassified with only type (set to dead_end) and
group modified. -/
theorem addSpecialRooms_frame_effect :
    (∀ st : GenState,
      (addSpecialRooms st).rooms.map Prod.fst = st.rooms.map Prod.fst) ∧
    (∀ (st : GenState) (id : String) (r r' : RoomPlacement),
      alGet? st.rooms id = some r → alGet? (addSpecialRooms st).rooms id = some r' →
      (r'.id = r.id ∧ r'.gridX = r.gridX ∧ r'.gridZ = r.gridZ ∧
       r'.worldX = r.worldX ∧ r'.worldZ = r.worldZ ∧
       r'.connections = r.connections ∧ (r' = r ∨ r'.type = RoomType.dead_end))) := by
  constructor
  · intro st
    exact forall₂_keys_eq (fun p q hs => hs.1) (addSpecialRooms_frame st).1
  · intro st id r r' hr hr'
    obtain ⟨v, hv, hs⟩ := forall₂_alGet?_right (fun p q hs => hs.1)
      (addSpecialRooms_frame st).1 id r' hr'
    rw [hr] at hv
    injection hv with hv
    subst hv
    exact ⟨hs.2.1, hs.2.2.1, hs.2.2.2.1, hs.2.2.2.2.1, hs.2.2.2.2.2.1,
      hs.2.2.2.2.2.2.1, hs.2.2.2.2.2.2.2⟩

def roomW : RoomPlacement :=
  ⟨"room_0", RoomType.basic, 0, 0, 0, 0, [(Direction.north, some "room_1")], none⟩

def specialStateW : GenState :=
  { config := ⟨0, 0, 0, 1, 0, 0⟩, rng := ⟨0⟩, grid := [],
    rooms := [("room_0", roomW)], roomIdCounter := 1,
    treasureRoomCount := 0, shrineRoomCount := 0 }

def roomWtreasure : RoomPlacement :=
  { roomW with
    type := RoomType.dead_end
    group := some ⟨RoomType.dead_end, some Direction.north, some Variant.treasure,
      0, 0, "room_0", 0, 0⟩ }

/-- Witness for C10: a one-room state whose dead end is reclassified as
a treasure room; only type and group changed. -/
theorem addSpecialRooms_frame_effect_witness :
    alGet? specialStateW.rooms "room_0" = some roomW ∧
    alGet? (addSpecialRooms specialStateW).rooms "room_0" = some roomWtreasure ∧
    (roomWtreasure.id = roomW.id ∧ roomWtreasure.gridX = roomW.gridX ∧
     roomWtreasure.gridZ = roomW.gridZ ∧ roomWtreasure.worldX = roomW.worldX ∧
     roomWtreasure.worldZ = roomW.worldZ ∧
     roomWtreasure.connections = roomW.connections ∧
     (roomWtreasure = roomW ∨ roomWtreasure.type = RoomType.dead_end)) :=
  ⟨by with_unfolding_all decide, by with_unfolding_all decide,
    addSpecialRooms_frame_effect.2 specialStateW "room_0" roomW roomWtreasure
      (by with_unfolding_all decide) (by with_unfolding_all decide)⟩

end DungeonSpec